import Mathlib

/-!
# Verification of the StegoAnalyzer orchestration layer

Shallow embedding of `stego_analyzer.py` and the rendering part of
`stego_gui.py` (repository `borsch-krd/stego-analyzer`).

The external world (the filesystem and the external tool binaries) is
modelled by an explicit environment `Stego.Env`: `subprocess.run` on a fixed
argument vector either returns a completed process (exit code, stdout,
stderr) or raises one of the exceptions the program distinguishes
(`TimeoutExpired`, `FileNotFoundError`, or any other `Exception`).  Python
functions that can let an exception escape are embedded as `Except PyExn`
valued functions.  Every function also reports the list of argument vectors
it passed to `subprocess.run`, in order, so that "tool X was never invoked"
is a statement about that trace.

Python dictionaries are embedded as insertion-ordered association lists of
`String × JVal`, where `JVal` is the JSON-like value type the analyzer
manipulates.  JSON numbers are modelled as integers; the analyzer itself
only ever stores integers (file sizes, line counts), and fractional JSON
numbers are outside the model.
-/

namespace Stego

/-- JSON-like values: the data the analyzer stores in its result
dictionaries.  `obj` keeps the insertion order of a Python dict. -/
inductive JVal where
  | null : JVal
  | b (v : Bool) : JVal
  | i (v : Int) : JVal
  | s (v : String) : JVal
  | arr (vs : List JVal) : JVal
  | obj (kvs : List (String × JVal)) : JVal

/-- A Python dict with string keys, in insertion order. -/
abbrev JObj := List (String × JVal)

/-- An argument vector passed to `subprocess.run`. -/
abbrev Cmd := List String

/-- The exceptions the program distinguishes.  `timeoutExpired` is
`subprocess.TimeoutExpired`, `fileNotFound` is `FileNotFoundError`, and
`other` stands for any other `Exception` (e.g. `PermissionError`,
`IndexError`); each carries its `str(e)` description. -/
inductive PyExn where
  | timeoutExpired (msg : String) : PyExn
  | fileNotFound (msg : String) : PyExn
  | other (msg : String) : PyExn

/-- `str(e)` of an exception. -/
def PyExn.msg : PyExn → String
  | .timeoutExpired m => m
  | .fileNotFound m => m
  | .other m => m

/-- The value of a non-raising `subprocess.run` call. -/
structure CompletedProcess where
  returncode : Int
  stdout : String
  stderr : String

/-- The deterministic external world: what `subprocess.run` does on a given
argument vector and timeout, which paths exist, file sizes, the raw bytes
of a file, and the process-wide temporary directory created at startup. -/
structure Env where
  run : Cmd → Nat → Except PyExn CompletedProcess
  pathExists : String → Bool
  getsize : String → Nat
  readBytes : String → List Nat
  tempDir : String

/-- Python truthiness of a `JVal` (used for `if tool_results.get(...)`). -/
def pyTruthy : JVal → Bool
  | .null => false
  | .b v => v
  | .i v => v != 0
  | .s v => v != ""
  | .arr vs => !vs.isEmpty
  | .obj kvs => !kvs.isEmpty

/-- `{"error": msg}` — the single-field error record the runners return. -/
def errRec (m : String) : JObj := [("error", JVal.s m)]

/-- The ASCII whitespace characters Python's `str.strip()` removes
(space, tab, newline, carriage return, vertical tab, form feed). -/
def isPyWs (c : Char) : Bool :=
  c == ' ' || c == '\t' || c == '\n' || c == '\r' || c == Char.ofNat 11 || c == Char.ofNat 12

/-- Python `s.strip()`: drop leading and trailing whitespace. -/
def pyStrip (s : String) : String :=
  String.mk (((s.data.dropWhile isPyWs).reverse.dropWhile isPyWs).reverse)

/-- Python `s.startswith(p)`. -/
def strStartsWith (p s : String) : Bool := p.data.isPrefixOf s.data

/-- Python `s.split('\n')` on the underlying characters: `[[]]` for the
empty string, one more group per newline. -/
def splitNl : List Char → List (List Char)
  | [] => [[]]
  | c :: r =>
    if c = '\n' then [] :: splitNl r
    else
      match splitNl r with
      | [] => [[c]]
      | g :: gs => (c :: g) :: gs

/-- Python `s.split('\n')`. -/
def pySplitLines (s : String) : List String := (splitNl s.data).map String.mk

/-- Concatenation of the images of `f`, in order (a `flatMap` spelled out
so its equations are convenient in proofs). -/
def catMap (f : α → List β) : List α → List β
  | [] => []
  | x :: xs => f x ++ catMap f xs

/-! ## UTF-8 decoding with an error policy

`open(path, encoding='utf-8', errors='ignore')` drops ill-formed byte
sequences; `errors='replace'` would substitute U+FFFD.  The decoder below
consumes one maximal well-formed sequence at a time; on an ill-formed byte
it consumes that single byte and applies the policy.  For the `ignore`
policy this agrees with Python's decoder (both simply drop every byte that
is not part of a well-formed sequence). -/

/-- Is `b` a UTF-8 continuation byte (`10xxxxxx`)? -/
def isContByte (b : Nat) : Bool := 128 ≤ b && b < 192

/-- Lower bound for the first continuation byte after leading byte `b`
(restricted ranges rule out overlong encodings and surrogates). -/
def cont1Lo (b : Nat) : Nat :=
  if b = 224 then 160 else if b = 237 then 128 else if b = 240 then 144 else 128

/-- Upper bound for the first continuation byte after leading byte `b`. -/
def cont1Hi (b : Nat) : Nat :=
  if b = 237 then 159 else if b = 244 then 143 else 191

/-- What an ill-formed byte decodes to: U+FFFD under `replace`, nothing
under `ignore`. -/
def badByte (rep : Bool) : List Char := if rep then [Char.ofNat 0xFFFD] else []

/-- UTF-8 decoder with error policy (`rep = true` replaces ill-formed
bytes with U+FFFD, `rep = false` drops them).  Fuel-indexed so that it is
structurally recursive; at least one byte is consumed per step, so fuel
equal to the byte count always suffices. -/
def decodeUtf8Aux (rep : Bool) : Nat → List Nat → List Char
  | 0, _ => []
  | _, [] => []
  | f + 1, b :: rest =>
    if b < 128 then Char.ofNat b :: decodeUtf8Aux rep f rest
    else if 194 ≤ b && b ≤ 223 then
      match rest with
      | c1 :: r2 =>
        if isContByte c1 then
          Char.ofNat ((b - 192) * 64 + (c1 - 128)) :: decodeUtf8Aux rep f r2
        else badByte rep ++ decodeUtf8Aux rep f rest
      | [] => badByte rep
    else if 224 ≤ b && b ≤ 239 then
      match rest with
      | c1 :: c2 :: r2 =>
        if (cont1Lo b ≤ c1 && c1 ≤ cont1Hi b) && isContByte c2 then
          Char.ofNat ((b - 224) * 4096 + (c1 - 128) * 64 + (c2 - 128)) :: decodeUtf8Aux rep f r2
        else badByte rep ++ decodeUtf8Aux rep f rest
      | _ => badByte rep ++ decodeUtf8Aux rep f rest
    else if 240 ≤ b && b ≤ 244 then
      match rest with
      | c1 :: c2 :: c3 :: r2 =>
        if ((cont1Lo b ≤ c1 && c1 ≤ cont1Hi b) && isContByte c2) && isContByte c3 then
          Char.ofNat ((b - 240) * 262144 + (c1 - 128) * 4096 + (c2 - 128) * 64 + (c3 - 128))
            :: decodeUtf8Aux rep f r2
        else badByte rep ++ decodeUtf8Aux rep f rest
      | _ => badByte rep ++ decodeUtf8Aux rep f rest
    else badByte rep ++ decodeUtf8Aux rep f rest

/-- `bytes.decode('utf-8', errors='ignore')`: ill-formed sequences are
dropped.  This is what the analyzer's side-channel file reads use. -/
def decodeUtf8Ignore (l : List Nat) : String := String.mk (decodeUtf8Aux false l.length l)

/-- Decoding with `errors='replace'`: ill-formed sequences become U+FFFD.
This definition follows the specification's words ("substituting
replacement characters") and is compared against the code's behaviour. -/
def decodeUtf8Replace (l : List Nat) : String := String.mk (decodeUtf8Aux true l.length l)

/-! ## A JSON parser (model of `json.loads`)

Fuel-indexed so that every function is structurally recursive and reduces
in the kernel.  Deviations from `json.loads`, none of which matter for the
claims: fractional/exponent number literals are rejected instead of parsed
as floats, lone surrogate escapes are rejected, and raw control characters
inside strings are accepted. -/

/-- JSON insignificant whitespace. -/
def isWsChar (c : Char) : Bool := c == ' ' || c == '\n' || c == '\t' || c == '\r'

/-- Skip insignificant whitespace. -/
def skipWs : List Char → List Char
  | [] => []
  | c :: r => if isWsChar c then skipWs r else c :: r

/-- Numeric value of a decimal digit character. -/
def digitVal (c : Char) : Nat := c.toNat - 48

/-- Split off a maximal run of decimal digits. -/
def takeDigits : List Char → List Char × List Char
  | [] => ([], [])
  | c :: r =>
    if c.isDigit then
      match takeDigits r with
      | (ds, rest) => (c :: ds, rest)
    else ([], c :: r)

/-- Value of a digit run, most significant first. -/
def digitsToNat (l : List Char) : Nat := l.foldl (fun a c => a * 10 + digitVal c) 0

/-- Parse a nonempty run of decimal digits. -/
def parseNum (s : List Char) : Option (Nat × List Char) :=
  match takeDigits s with
  | (ds, rest) => if ds.isEmpty then none else some (digitsToNat ds, rest)

/-- Value of a hexadecimal digit character, if it is one. -/
def hexVal (c : Char) : Option Nat :=
  if c.isDigit then some (c.toNat - 48)
  else if 'a' ≤ c && c ≤ 'f' then some (c.toNat - 87)
  else if 'A' ≤ c && c ≤ 'F' then some (c.toNat - 55)
  else none

/-- Value of four hexadecimal digits. -/
def hex4 (a b c d : Char) : Option Nat :=
  match hexVal a, hexVal b, hexVal c, hexVal d with
  | some x, some y, some z, some w => some (((x * 16 + y) * 16 + z) * 16 + w)
  | _, _, _, _ => none

/-- Parse exactly four hex digits from the front of the input. -/
def parseHex4 : List Char → Option (Nat × List Char)
  | a :: b :: c :: d :: r =>
    (match hex4 a b c d with
     | some n => some (n, r)
     | none => none)
  | _ => none

/-- Decode a `\uXXXX` escape (the input starts right after the `\u`),
combining a high/low surrogate pair into one code point as CPython's
`json` scanner does. -/
def uEsc (r : List Char) : Option (Char × List Char) :=
  match parseHex4 r with
  | none => none
  | some (n, r2) =>
    if 0xD800 ≤ n ∧ n ≤ 0xDBFF then
      match r2 with
      | '\\' :: 'u' :: r3 =>
        (match parseHex4 r3 with
         | some (m, r4) =>
           if 0xDC00 ≤ m ∧ m ≤ 0xDFFF then
             some (Char.ofNat (0x10000 + (n - 0xD800) * 0x400 + (m - 0xDC00)), r4)
           else none
         | none => none)
      | _ => none
    else if 0xDC00 ≤ n ∧ n ≤ 0xDFFF then none
    else some (Char.ofNat n, r2)

/-- Decode one backslash escape (the input starts right after the
backslash), returning the decoded character and the remaining input. -/
def escStep : List Char → Option (Char × List Char)
  | '"' :: r2 => some ('"', r2)
  | '\\' :: r2 => some ('\\', r2)
  | '/' :: r2 => some ('/', r2)
  | 'b' :: r2 => some (Char.ofNat 8, r2)
  | 'f' :: r2 => some (Char.ofNat 12, r2)
  | 'n' :: r2 => some (Char.ofNat 10, r2)
  | 'r' :: r2 => some (Char.ofNat 13, r2)
  | 't' :: r2 => some (Char.ofNat 9, r2)
  | 'u' :: r2 => uEsc r2
  | _ => none

/-- Parse the body of a JSON string literal (after the opening quote),
returning the decoded characters and the input after the closing quote.
Fuel-indexed (at least one character is consumed per step, so fuel equal
to the input length suffices). -/
def parseStrBodyF : Nat → List Char → Option (List Char × List Char)
  | 0, _ => none
  | _ + 1, [] => none
  | f + 1, c :: r =>
    if c = '"' then some ([], r)
    else if c = '\\' then
      match escStep r with
      | none => none
      | some (e, r2) => (parseStrBodyF f r2).map (fun p => (e :: p.1, p.2))
    else (parseStrBodyF f r).map (fun p => (c :: p.1, p.2))

/-- Parse a JSON string body; the input length bounds the steps needed. -/
def parseStrBody (s : List Char) : Option (List Char × List Char) :=
  parseStrBodyF (s.length + 1) s

mutual

/-- Parse one JSON value (fuel-indexed).  The dispatch on the first
significant character is a chain of decidable tests so that the function
reduces even when that character is symbolic. -/
def parseVal : Nat → List Char → Option (JVal × List Char)
  | 0, _ => none
  | f + 1, s =>
    match skipWs s with
    | [] => none
    | c :: r =>
      if c = '"' then (parseStrBody r).map (fun p => (JVal.s (String.mk p.1), p.2))
      else if c = '[' then
        (match skipWs r with
         | [] => none
         | c2 :: r2 =>
           if c2 = ']' then some (JVal.arr [], r2)
           else (parseElems f (c2 :: r2)).map (fun p => (JVal.arr p.1, p.2)))
      else if c = '{' then
        (match skipWs r with
         | [] => none
         | c2 :: r2 =>
           if c2 = '}' then some (JVal.obj [], r2)
           else (parseMembers f (c2 :: r2)).map (fun p => (JVal.obj p.1, p.2)))
      else if c = 't' then
        (match r with
         | 'r' :: 'u' :: 'e' :: r2 => some (JVal.b true, r2)
         | _ => none)
      else if c = 'f' then
        (match r with
         | 'a' :: 'l' :: 's' :: 'e' :: r2 => some (JVal.b false, r2)
         | _ => none)
      else if c = 'n' then
        (match r with
         | 'u' :: 'l' :: 'l' :: r2 => some (JVal.null, r2)
         | _ => none)
      else if c = '-' then (parseNum r).map (fun p => (JVal.i (-(p.1 : Int)), p.2))
      else (parseNum (c :: r)).map (fun p => (JVal.i (p.1 : Int), p.2))

/-- Parse the elements of a nonempty JSON array, including the closing
bracket. -/
def parseElems : Nat → List Char → Option (List JVal × List Char)
  | 0, _ => none
  | f + 1, s =>
    match parseVal f s with
    | none => none
    | some (v, r) =>
      match skipWs r with
      | ',' :: r2 => (parseElems f r2).map (fun p => (v :: p.1, p.2))
      | ']' :: r2 => some ([v], r2)
      | _ => none

/-- Parse the members of a nonempty JSON object, including the closing
brace. -/
def parseMembers : Nat → List Char → Option (JObj × List Char)
  | 0, _ => none
  | f + 1, s =>
    match skipWs s with
    | '"' :: r =>
      (match parseStrBody r with
       | none => none
       | some (k, r2) =>
         match skipWs r2 with
         | ':' :: r3 =>
           (match parseVal f r3 with
            | none => none
            | some (v, r4) =>
              match skipWs r4 with
              | ',' :: r5 => (parseMembers f r5).map (fun p => ((String.mk k, v) :: p.1, p.2))
              | '}' :: r5 => some ([(String.mk k, v)], r5)
              | _ => none)
         | _ => none)
    | _ => none

end

/-- Model of `json.loads`: parse a complete document, rejecting trailing
garbage.  `none` models `json.JSONDecodeError`. -/
def jsonParse (s : String) : Option JVal :=
  match parseVal (s.length + 2) s.data with
  | some (v, rest) => if skipWs rest = [] then some v else none
  | none => none

/-- Python's `x[0]` on a JSON value.  Only the list case is reachable from
`run_exiftool` (a successfully parsed document whose stripped text starts
with `[` is an array); the messages of the unreachable branches summarise
the corresponding Python exception text without its quoting. -/
def pyIndex0 : JVal → Except PyExn JVal
  | .arr (x :: _) => .ok x
  | .arr [] => .error (.other "list index out of range")
  | .s v => if v = "" then .error (.other "string index out of range")
            else .ok (.s (String.mk [v.data.headD ' ']))
  | .obj _ => .error (.other "0")
  | .null => .error (.other "NoneType object is not subscriptable")
  | .b _ => .error (.other "bool object is not subscriptable")
  | .i _ => .error (.other "int object is not subscriptable")

/-! ## Tool registry and runner (`stego_analyzer.py`)

Each embedded function returns, besides its value, the list of argument
vectors it passed to `subprocess.run`, in order.  An `Except.error` result
models a Python exception escaping the function. -/

/-- `StegoAnalyzer._check_command`: probe a command with `--version`; if
that call raises `TimeoutExpired`, `FileNotFoundError` (or
`CalledProcessError`, which `subprocess.run` without `check=True` never
raises), retry once with `-h` under a bare `except`.  Any other exception
from the first attempt (e.g. `PermissionError`) is not caught and
escapes.  A non-zero exit code of the first attempt returns `false`
without retrying. -/
def check_command (env : Env) (command : String) : Except PyExn (Bool × List Cmd) :=
  match env.run [command, "--version"] 5 with
  | .ok r => .ok (r.returncode == 0, [[command, "--version"]])
  | .error (.timeoutExpired _) | .error (.fileNotFound _) =>
    (match env.run [command, "-h"] 5 with
     | .ok r => .ok (r.returncode == 0, [[command, "--version"], [command, "-h"]])
     | .error _ => .ok (false, [[command, "--version"], [command, "-h"]]))
  | .error (.other m) => .error (.other m)

/-- The fixed tool registry, in check order. -/
def toolNames : List String :=
  ["zsteg", "steghide", "outguess", "exiftool", "binwalk", "foremost", "strings"]

/-- `StegoAnalyzer.check_tool_availability`: probe all seven tools, in
registry order, building the availability dict. -/
def check_tool_availability (env : Env) : Except PyExn (List (String × Bool) × List Cmd) :=
  match check_command env "zsteg" with
  | .error e => .error e
  | .ok (b1, d1) =>
  match check_command env "steghide" with
  | .error e => .error e
  | .ok (b2, d2) =>
  match check_command env "outguess" with
  | .error e => .error e
  | .ok (b3, d3) =>
  match check_command env "exiftool" with
  | .error e => .error e
  | .ok (b4, d4) =>
  match check_command env "binwalk" with
  | .error e => .error e
  | .ok (b5, d5) =>
  match check_command env "foremost" with
  | .error e => .error e
  | .ok (b6, d6) =>
  match check_command env "strings" with
  | .error e => .error e
  | .ok (b7, d7) =>
    .ok ([("zsteg", b1), ("steghide", b2), ("outguess", b3), ("exiftool", b4),
          ("binwalk", b5), ("foremost", b6), ("strings", b7)],
         d1 ++ d2 ++ d3 ++ d4 ++ d5 ++ d6 ++ d7)

/-- `StegoAnalyzer.run_zsteg`. -/
def run_zsteg (env : Env) (file_path : String) : Except PyExn (JObj × List Cmd) :=
  match check_command env "zsteg" with
  | .error e => .error e
  | .ok (avail, d0) =>
    if avail then
      match env.run ["zsteg", "-a", file_path] 60 with
      | .ok r =>
        .ok ([("tool", JVal.s "zsteg"), ("output", JVal.s r.stdout),
              ("errors", JVal.s r.stderr), ("success", JVal.b (r.returncode == 0))],
             d0 ++ [["zsteg", "-a", file_path]])
      | .error (.timeoutExpired _) =>
        .ok (errRec "zsteg analysis timed out", d0 ++ [["zsteg", "-a", file_path]])
      | .error e =>
        .ok (errRec ("zsteg error: " ++ e.msg), d0 ++ [["zsteg", "-a", file_path]])
    else .ok (errRec "zsteg not available", d0)

/-- The argument vector `run_steghide` builds: an empty passphrase is
passed explicitly as `-p ''`. -/
def steghideCmd (env : Env) (file_path password : String) : Cmd :=
  let cmd := ["steghide", "extract", "-sf", file_path, "-xf",
              env.tempDir ++ "/steghide_output.txt"]
  if password != "" then cmd ++ ["-p", password] else cmd ++ ["-p", ""]

/-- `StegoAnalyzer.run_steghide`: extract to a side-channel file in the
temporary directory, then read it back with `errors='ignore'`; a missing
side-channel file yields empty extracted content.  All invocation
exceptions (including `TimeoutExpired`) are wrapped by the single
`except Exception` handler. -/
def run_steghide (env : Env) (file_path : String) (password : String := "") :
    Except PyExn (JObj × List Cmd) :=
  match check_command env "steghide" with
  | .error e => .error e
  | .ok (avail, d0) =>
    if avail then
      match env.run (steghideCmd env file_path password) 30 with
      | .ok r =>
        .ok ([("tool", JVal.s "steghide"), ("output", JVal.s r.stdout),
              ("errors", JVal.s r.stderr),
              ("extracted_content", JVal.s
                (if env.pathExists (env.tempDir ++ "/steghide_output.txt") then
                   decodeUtf8Ignore (env.readBytes (env.tempDir ++ "/steghide_output.txt"))
                 else "")),
              ("success", JVal.b (r.returncode == 0))],
             d0 ++ [steghideCmd env file_path password])
      | .error e =>
        .ok (errRec ("steghide error: " ++ e.msg), d0 ++ [steghideCmd env file_path password])
    else .ok (errRec "steghide not available", d0)

/-- `StegoAnalyzer.run_outguess`: like `run_steghide`, with its own
side-channel file. -/
def run_outguess (env : Env) (file_path : String) : Except PyExn (JObj × List Cmd) :=
  match check_command env "outguess" with
  | .error e => .error e
  | .ok (avail, d0) =>
    if avail then
      match env.run ["outguess", "-r", file_path, env.tempDir ++ "/outguess_output.txt"] 30 with
      | .ok r =>
        .ok ([("tool", JVal.s "outguess"), ("output", JVal.s r.stdout),
              ("errors", JVal.s r.stderr),
              ("extracted_content", JVal.s
                (if env.pathExists (env.tempDir ++ "/outguess_output.txt") then
                   decodeUtf8Ignore (env.readBytes (env.tempDir ++ "/outguess_output.txt"))
                 else "")),
              ("success", JVal.b (r.returncode == 0))],
             d0 ++ [["outguess", "-r", file_path, env.tempDir ++ "/outguess_output.txt"]])
      | .error e =>
        .ok (errRec ("outguess error: " ++ e.msg),
             d0 ++ [["outguess", "-r", file_path, env.tempDir ++ "/outguess_output.txt"]])
    else .ok (errRec "outguess not available", d0)

/-- The metadata computed by `run_exiftool` from the tool's stdout, or the
exception that computation raises.  `metadata = json.loads(stdout)[0] if
stdout.strip().startswith('[') else {}` guarded by `if stdout:`, with only
`json.JSONDecodeError` caught (an `IndexError` from `[0]` escapes to the
outer handler). -/
def exiftoolMetadata (stdout : String) : Except PyExn JVal :=
  if stdout != "" then
    if strStartsWith "[" (pyStrip stdout) then
      match jsonParse stdout with
      | some v => pyIndex0 v
      | none => .ok (JVal.obj [])
    else .ok (JVal.obj [])
  else .ok (JVal.obj [])

/-- `StegoAnalyzer.run_exiftool`. -/
def run_exiftool (env : Env) (file_path : String) : Except PyExn (JObj × List Cmd) :=
  match check_command env "exiftool" with
  | .error e => .error e
  | .ok (avail, d0) =>
    if avail then
      match env.run ["exiftool", "-j", file_path] 30 with
      | .ok r =>
        (match exiftoolMetadata r.stdout with
         | .ok metadata =>
           .ok ([("tool", JVal.s "exiftool"), ("metadata", metadata),
                 ("raw_output", JVal.s r.stdout), ("errors", JVal.s r.stderr),
                 ("success", JVal.b (r.returncode == 0))],
                d0 ++ [["exiftool", "-j", file_path]])
         | .error e =>
           .ok (errRec ("exiftool error: " ++ e.msg), d0 ++ [["exiftool", "-j", file_path]]))
      | .error e =>
        .ok (errRec ("exiftool error: " ++ e.msg), d0 ++ [["exiftool", "-j", file_path]])
    else .ok (errRec "exiftool not available", d0)

/-- `StegoAnalyzer.run_binwalk`: an extraction run followed by a signature
run; the success flag comes from the extraction run's exit code. -/
def run_binwalk (env : Env) (file_path : String) : Except PyExn (JObj × List Cmd) :=
  match check_command env "binwalk" with
  | .error e => .error e
  | .ok (avail, d0) =>
    if avail then
      match env.run ["binwalk", "-e", "-C", env.tempDir ++ "/binwalk_extract", file_path] 60 with
      | .ok r =>
        (match env.run ["binwalk", file_path] 30 with
         | .ok sig =>
           .ok ([("tool", JVal.s "binwalk"), ("signatures", JVal.s sig.stdout),
                 ("extraction_output", JVal.s r.stdout), ("errors", JVal.s r.stderr),
                 ("extract_dir", JVal.s (env.tempDir ++ "/binwalk_extract")),
                 ("success", JVal.b (r.returncode == 0))],
                d0 ++ [["binwalk", "-e", "-C", env.tempDir ++ "/binwalk_extract", file_path],
                       ["binwalk", file_path]])
         | .error e =>
           .ok (errRec ("binwalk error: " ++ e.msg),
                d0 ++ [["binwalk", "-e", "-C", env.tempDir ++ "/binwalk_extract", file_path],
                       ["binwalk", file_path]]))
      | .error e =>
        .ok (errRec ("binwalk error: " ++ e.msg),
             d0 ++ [["binwalk", "-e", "-C", env.tempDir ++ "/binwalk_extract", file_path]])
    else .ok (errRec "binwalk not available", d0)

/-- `StegoAnalyzer.run_foremost`: carve into an output directory, then read
the audit file back with `errors='ignore'`. -/
def run_foremost (env : Env) (file_path : String) : Except PyExn (JObj × List Cmd) :=
  match check_command env "foremost" with
  | .error e => .error e
  | .ok (avail, d0) =>
    if avail then
      match env.run ["foremost", "-i", file_path, "-o", env.tempDir ++ "/foremost_output"] 60 with
      | .ok r =>
        .ok ([("tool", JVal.s "foremost"), ("output", JVal.s r.stdout),
              ("errors", JVal.s r.stderr),
              ("audit", JVal.s
                (if env.pathExists (env.tempDir ++ "/foremost_output/audit.txt") then
                   decodeUtf8Ignore (env.readBytes (env.tempDir ++ "/foremost_output/audit.txt"))
                 else "")),
              ("output_dir", JVal.s (env.tempDir ++ "/foremost_output")),
              ("success", JVal.b (r.returncode == 0))],
             d0 ++ [["foremost", "-i", file_path, "-o", env.tempDir ++ "/foremost_output"]])
      | .error e =>
        .ok (errRec ("foremost error: " ++ e.msg),
             d0 ++ [["foremost", "-i", file_path, "-o", env.tempDir ++ "/foremost_output"]])
    else .ok (errRec "foremost not available", d0)

/-- The filtered "interesting" strings: each raw line is stripped and kept
when its stripped length exceeds 5 (the Python loop over
`result.stdout.split('\n')`). -/
def interestingOf (stdout : String) : List String :=
  ((pySplitLines stdout).map (fun l => pyStrip l)).filter (fun l => 5 < l.length)

/-- `StegoAnalyzer.run_strings`: keep the first 100 interesting strings and
the total raw line count. -/
def run_strings (env : Env) (file_path : String) : Except PyExn (JObj × List Cmd) :=
  match check_command env "strings" with
  | .error e => .error e
  | .ok (avail, d0) =>
    if avail then
      match env.run ["strings", file_path] 30 with
      | .ok r =>
        .ok ([("tool", JVal.s "strings"), ("all_strings", JVal.s r.stdout),
              ("interesting_strings", JVal.arr (((interestingOf r.stdout).take 100).map JVal.s)),
              ("total_strings", JVal.i (pySplitLines r.stdout).length),
              ("errors", JVal.s r.stderr), ("success", JVal.b (r.returncode == 0))],
             d0 ++ [["strings", file_path]])
      | .error e => .ok (errRec ("strings error: " ++ e.msg), d0 ++ [["strings", file_path]])
    else .ok (errRec "strings not available", d0)

/-! ## Analysis aggregator (`StegoAnalyzer.analyze_file`) -/

/-- One step of the aggregator: `if available_tools.get(name):
results["analysis_results"][name] = runner(...)`.  Inserting a fresh key
into a Python dict appends it at the end.  The runner's value is computed
only when the tool is available, so an unavailable tool contributes no
commands to the trace. -/
def maybeRun (avail : List (String × Bool)) (name : String)
    (runner : Except PyExn (JObj × List Cmd)) (st : JObj × List Cmd) :
    Except PyExn (JObj × List Cmd) :=
  if (avail.lookup name).getD false then
    match runner with
    | .ok (r, d) => .ok (st.1 ++ [(name, JVal.obj r)], st.2 ++ d)
    | .error e => .error e
  else .ok st

/-- Run the registry steps in order, accumulating the result mapping and
the command trace. -/
def foldSteps (avail : List (String × Bool)) :
    List (String × Except PyExn (JObj × List Cmd)) → JObj × List Cmd →
    Except PyExn (JObj × List Cmd)
  | [], st => .ok st
  | (n, runner) :: rest, st =>
    match maybeRun avail n runner st with
    | .ok st2 => foldSteps avail rest st2
    | .error e => .error e

/-- The seven invocation steps of `analyze_file`, in source order. -/
def stepList (env : Env) (file_path password : String) :
    List (String × Except PyExn (JObj × List Cmd)) :=
  [("zsteg", run_zsteg env file_path),
   ("steghide", run_steghide env file_path password),
   ("outguess", run_outguess env file_path),
   ("exiftool", run_exiftool env file_path),
   ("binwalk", run_binwalk env file_path),
   ("foremost", run_foremost env file_path),
   ("strings", run_strings env file_path)]

/-- `StegoAnalyzer.analyze_file`: short-circuit when the input file does
not exist, otherwise record size, probe availability once, and run every
available tool in registry order. -/
def analyze_file (env : Env) (file_path : String) (password : String := "") :
    Except PyExn (JObj × List Cmd) :=
  if env.pathExists file_path then
    let file_size := env.getsize file_path
    match check_tool_availability env with
    | .error e => .error e
    | .ok (available_tools, d0) =>
      match foldSteps available_tools (stepList env file_path password) ([], d0) with
      | .error e => .error e
      | .ok (ar, d) =>
        .ok ([("file_path", JVal.s file_path), ("file_size", JVal.i file_size),
              ("analysis_results", JVal.obj ar)], d)
  else .ok (errRec "File not found", [])

/-! ## Rendering (`StegoAnalyzer.print_results` and
`StegoGUI.display_results`)

Both renderers are modelled as functions from the report's
`analysis_results` mapping to the list of rendering decisions they make,
in order.  Unconditional formatting (banners, separators, the file
path/size header, colour codes, blank lines) is not a decision and is
omitted. -/

/-- One rendering decision. -/
inductive RLine where
  | header (tool : String)
  | errorLine (v : JVal)
  | noResults
  | text (v : JVal)
  | extractedHeader
  | noExtracted
  | metaKV (k : String) (v : JVal)
  | noMetadata
  | noSignatures
  | noCarved
  | stringsSummary (total : JVal)
  | stringsItem (i : Nat) (v : JVal)
  | noInteresting

/-- `content[:500] + "..." if len(content) > 500 else content`, applied to
the extracted-content value (always a string in reports the analyzer
produces). -/
def truncVal : JVal → JVal
  | .s c => if 500 < c.length then .s (c.take 500 ++ "...") else .s c
  | v => v

/-- Field access `tool_results.get(key)` (default `None`). -/
def jget (r : JObj) (k : String) : JVal := (r.lookup k).getD JVal.null

/-- The console renderer's tool-specific branch chain (an `elif` chain on
the tool name).  The non-dict fallthroughs of `metadata` and
`interesting_strings` are unreachable in reports the analyzer produces. -/
def cli_tool_specific (tool_name : String) (r : JObj) : List RLine :=
  if tool_name == "zsteg" && pyTruthy (jget r "output") then
    [RLine.text (jget r "output")]
  else if tool_name == "steghide" then
    if pyTruthy (jget r "extracted_content") then
      [RLine.extractedHeader, RLine.text (truncVal (jget r "extracted_content"))]
    else [RLine.noExtracted]
  else if tool_name == "outguess" then
    if pyTruthy (jget r "extracted_content") then
      [RLine.extractedHeader, RLine.text (truncVal (jget r "extracted_content"))]
    else [RLine.noExtracted]
  else if tool_name == "exiftool" then
    match (r.lookup "metadata").getD (JVal.obj []) with
    | .obj kvs => kvs.map (fun kv => RLine.metaKV kv.1 kv.2)
    | _ => []
  else if tool_name == "binwalk" then
    if pyTruthy (jget r "signatures") then [RLine.text (jget r "signatures")] else []
  else if tool_name == "foremost" then
    if pyTruthy (jget r "audit") then [RLine.text (jget r "audit")] else []
  else if tool_name == "strings" then
    match (r.lookup "interesting_strings").getD (JVal.arr []) with
    | .arr l =>
      if !l.isEmpty then
        RLine.stringsSummary ((r.lookup "total_strings").getD (JVal.i 0)) ::
          (l.take 10).enum.map (fun p => RLine.stringsItem p.1 p.2)
      else []
    | _ => []
  else []

/-- The form renderer's tool-specific branch chain: the same chain with an
explicit empty-case line for exiftool, binwalk, foremost and strings. -/
def gui_tool_specific (tool_name : String) (r : JObj) : List RLine :=
  if tool_name == "zsteg" && pyTruthy (jget r "output") then
    [RLine.text (jget r "output")]
  else if tool_name == "steghide" then
    if pyTruthy (jget r "extracted_content") then
      [RLine.extractedHeader, RLine.text (truncVal (jget r "extracted_content"))]
    else [RLine.noExtracted]
  else if tool_name == "outguess" then
    if pyTruthy (jget r "extracted_content") then
      [RLine.extractedHeader, RLine.text (truncVal (jget r "extracted_content"))]
    else [RLine.noExtracted]
  else if tool_name == "exiftool" then
    match (r.lookup "metadata").getD (JVal.obj []) with
    | .obj kvs =>
      if !kvs.isEmpty then kvs.map (fun kv => RLine.metaKV kv.1 kv.2)
      else [RLine.noMetadata]
    | _ => [RLine.noMetadata]
  else if tool_name == "binwalk" then
    if pyTruthy (jget r "signatures") then [RLine.text (jget r "signatures")]
    else [RLine.noSignatures]
  else if tool_name == "foremost" then
    if pyTruthy (jget r "audit") then [RLine.text (jget r "audit")]
    else [RLine.noCarved]
  else if tool_name == "strings" then
    match (r.lookup "interesting_strings").getD (JVal.arr []) with
    | .arr l =>
      if !l.isEmpty then
        RLine.stringsSummary ((r.lookup "total_strings").getD (JVal.i 0)) ::
          (l.take 10).enum.map (fun p => RLine.stringsItem p.1 p.2)
      else [RLine.noInteresting]
    | _ => [RLine.noInteresting]
  else []

/-- One tool's rendering in `print_results`: header, then the error line
with `continue`, otherwise the "No results found" marker when the success
flag is falsy — with **no** `continue`, so the tool-specific branch chain
still runs — then the branch chain. -/
def cli_entry : String × JVal → List RLine
  | (tool_name, .obj r) =>
    RLine.header tool_name ::
      (match r.lookup "error" with
       | some v => [RLine.errorLine v]
       | none =>
         (if pyTruthy ((r.lookup "success").getD (JVal.b false)) then []
          else [RLine.noResults]) ++ cli_tool_specific tool_name r)
  | (tool_name, _) => [RLine.header tool_name]

/-- One tool's rendering in `display_results`: header, error line with
`continue`, and — unlike the console renderer — a `continue` after
"No results found" when the success flag is falsy. -/
def gui_entry : String × JVal → List RLine
  | (tool_name, .obj r) =>
    RLine.header tool_name ::
      (match r.lookup "error" with
       | some v => [RLine.errorLine v]
       | none =>
         if pyTruthy ((r.lookup "success").getD (JVal.b false)) then
           gui_tool_specific tool_name r
         else [RLine.noResults])
  | (tool_name, _) => [RLine.header tool_name]

/-- `StegoAnalyzer.print_results`, restricted to its walk over
`results["analysis_results"].items()`. -/
def print_results (ar : JObj) : List RLine := catMap cli_entry ar

/-- `StegoGUI.display_results`, restricted to its walk over
`results["analysis_results"].items()`. -/
def display_results (ar : JObj) : List RLine := catMap gui_entry ar

/-! ## Persistence (`StegoAnalyzer.save_results`)

`json.dump(self.results, f, indent=2, default=str)`.  All values the
analyzer stores are JSON-native, so `default=str` is never consulted.  The
serializer below reproduces `json.dump` with `indent=2` (so item
separators are `",\n"` and key separators `": "`) and `ensure_ascii=True`
(ASCII output, `\uXXXX` escapes — including surrogate pairs — for
non-ASCII characters). -/

/-- The decimal digit character for `k < 10` (a literal table, so facts
about it can be settled by `decide` after a case split). -/
def digitChr (k : Nat) : Char :=
  match k with
  | 0 => '0' | 1 => '1' | 2 => '2' | 3 => '3' | 4 => '4'
  | 5 => '5' | 6 => '6' | 7 => '7' | 8 => '8' | _ => '9'

/-- The lowercase hexadecimal digit character for `k < 16`. -/
def hexChr (k : Nat) : Char :=
  match k with
  | 0 => '0' | 1 => '1' | 2 => '2' | 3 => '3' | 4 => '4'
  | 5 => '5' | 6 => '6' | 7 => '7' | 8 => '8' | 9 => '9'
  | 10 => 'a' | 11 => 'b' | 12 => 'c' | 13 => 'd' | 14 => 'e' | _ => 'f'

/-- Four lowercase hex digits of `n < 0x10000`. -/
def toHex4 (n : Nat) : List Char :=
  [hexChr (n / 4096 % 16), hexChr (n / 256 % 16), hexChr (n / 16 % 16), hexChr (n % 16)]

/-- JSON escaping of one character, as `json.dump` does with
`ensure_ascii=True`. -/
def escChar (c : Char) : List Char :=
  if c = '"' then ['\\', '"']
  else if c = '\\' then ['\\', '\\']
  else if c = Char.ofNat 8 then ['\\', 'b']
  else if c = Char.ofNat 9 then ['\\', 't']
  else if c = Char.ofNat 10 then ['\\', 'n']
  else if c = Char.ofNat 12 then ['\\', 'f']
  else if c = Char.ofNat 13 then ['\\', 'r']
  else if c.toNat < 32 then '\\' :: 'u' :: toHex4 c.toNat
  else if c.toNat < 128 then [c]
  else if c.toNat < 0x10000 then '\\' :: 'u' :: toHex4 c.toNat
  else
    ('\\' :: 'u' :: toHex4 (0xD800 + (c.toNat - 0x10000) / 0x400)) ++
      ('\\' :: 'u' :: toHex4 (0xDC00 + (c.toNat - 0x10000) % 0x400))

/-- Serialized body of a string literal. -/
def serStrBody (l : List Char) : List Char := catMap escChar l

/-- Decimal digits of `n` (fuel-indexed to stay structurally recursive;
`n + 1` units of fuel always suffice). -/
def natDecAux : Nat → Nat → List Char
  | 0, _ => []
  | f + 1, n =>
    if n < 10 then [digitChr n]
    else natDecAux f (n / 10) ++ [digitChr (n % 10)]

/-- Decimal representation of a natural number. -/
def natDec (n : Nat) : List Char := natDecAux (n + 1) n

/-- Decimal representation of an integer. -/
def serInt (n : Int) : List Char :=
  if n < 0 then '-' :: natDec (-n).toNat else natDec n.toNat

/-- Indentation at nesting depth `d` with `indent=2`. -/
def ind2 (d : Nat) : List Char := List.replicate (2 * d) ' '

mutual

/-- Serialize a value at nesting depth `d`, as `json.dump(..., indent=2)`
lays it out. -/
def serVal : Nat → JVal → List Char
  | _, .null => ['n', 'u', 'l', 'l']
  | _, .b true => ['t', 'r', 'u', 'e']
  | _, .b false => ['f', 'a', 'l', 's', 'e']
  | _, .i n => serInt n
  | _, .s v => '"' :: (serStrBody v.data ++ ['"'])
  | _, .arr [] => ['[', ']']
  | d, .arr (x :: xs) =>
    '[' :: '\n' :: (ind2 (d + 1) ++ (serVal (d + 1) x ++ (serElemsTail (d + 1) xs ++
      '\n' :: (ind2 d ++ [']']))))
  | _, .obj [] => ['{', '}']
  | d, .obj (kv :: kvs) =>
    '{' :: '\n' :: (ind2 (d + 1) ++ (serMember (d + 1) kv ++ (serMemsTail (d + 1) kvs ++
      '\n' :: (ind2 d ++ ['}']))))

/-- Serialize one `"key": value` member. -/
def serMember : Nat → String × JVal → List Char
  | d, (k, v) => '"' :: (serStrBody k.data ++ ('"' :: ':' :: ' ' :: serVal d v))

/-- Serialize the remaining elements of an array (each preceded by the
`",\n"` item separator and indentation). -/
def serElemsTail : Nat → List JVal → List Char
  | _, [] => []
  | d, x :: xs => ',' :: '\n' :: (ind2 d ++ (serVal d x ++ serElemsTail d xs))

/-- Serialize the remaining members of an object. -/
def serMemsTail : Nat → List (String × JVal) → List Char
  | _, [] => []
  | d, kv :: kvs => ',' :: '\n' :: (ind2 d ++ (serMember d kv ++ serMemsTail d kvs))

end

/-- The JSON document `StegoAnalyzer.save_results` writes for the given
in-memory results store. -/
def save_results (store : JObj) : String := String.mk (serVal 0 (JVal.obj store))

/-- Well-formedness of a value held by a Python object: every embedded
dict has pairwise distinct keys (guaranteed by Python's dict type). -/
inductive WFJ : JVal → Prop where
  | null : WFJ .null
  | b (v : Bool) : WFJ (.b v)
  | i (v : Int) : WFJ (.i v)
  | s (v : String) : WFJ (.s v)
  | arr (vs : List JVal) : (∀ x ∈ vs, WFJ x) → WFJ (.arr vs)
  | obj (kvs : JObj) : (kvs.map Prod.fst).Nodup → (∀ kv ∈ kvs, WFJ kv.2) → WFJ (.obj kvs)

mutual

/-- Structural size of a JSON value (a fuel bound for the parser). -/
def sizeJ : JVal → Nat
  | .null => 1
  | .b _ => 1
  | .i _ => 1
  | .s _ => 1
  | .arr vs => sizeListJ vs + 1
  | .obj kvs => sizeMemsJ kvs + 1

/-- Size of an array's element list. -/
def sizeListJ : List JVal → Nat
  | [] => 0
  | v :: vs => sizeJ v + sizeListJ vs + 1

/-- Size of an object's member list. -/
def sizeMemsJ : List (String × JVal) → Nat
  | [] => 0
  | kv :: kvs => sizeJ kv.2 + sizeMemsJ kvs + 1

end

/-! ## Auxiliary definitions used by the claim statements and their
witnesses (concrete environments, rendering headers, relational helpers) -/

/-- The first probe attempt for `c` does not raise an exception outside
`TimeoutExpired`/`FileNotFoundError` (those are the two the probe's first
`except` clause catches and can actually occur). -/
def probeSafe (env : Env) (c : String) : Prop :=
  ∀ m, env.run [c, "--version"] 5 ≠ .error (.other m)

/-- The shape claim C3 asserts of every invocation-function result: the
call returns a record (no exception), and that record is either exactly a
one-field error record, or carries a success flag equal to the invoked
process's exit code being zero. -/
def containedResult (env : Env) (cmd : Cmd) (tmo : Nat)
    (x : Except PyExn (JObj × List Cmd)) : Prop :=
  ∃ res d, x = .ok (res, d) ∧
    ((∃ m, res = errRec m) ∨
      ∃ p, env.run cmd tmo = .ok p ∧
        res.lookup "success" = some (JVal.b (p.returncode == 0)))

/-- A world where every command completes with exit code 0 and empty
output, every path exists, and side-channel files are empty. -/
def envOk : Env where
  run := fun _ _ => .ok ⟨0, "", ""⟩
  pathExists := fun _ => true
  getsize := fun _ => 4096
  readBytes := fun _ => []
  tempDir := "/tmp/stego_model"

/-- A world where the analyzed file does not exist (and every probe would
report the missing executable). -/
def envNone : Env where
  run := fun _ _ => .error (.fileNotFound "No such file or directory")
  pathExists := fun _ => false
  getsize := fun _ => 0
  readBytes := fun _ => []
  tempDir := "/tmp/stego_model"

/-- A world where the `zsteg` probe's first attempt raises a
`PermissionError` (a non-executable `zsteg` on the PATH), which
`_check_command`'s first `except` clause does not catch. -/
def envPermErr : Env where
  run := fun cmd _ =>
    if cmd = ["zsteg", "--version"] then .error (.other "Permission denied")
    else .ok ⟨0, "", ""⟩
  pathExists := fun _ => true
  getsize := fun _ => 0
  readBytes := fun _ => []
  tempDir := "/tmp/stego_model"

/-- A world where `outguess --version` exits with code 1 while
`outguess -h` exits with code 0. -/
def envC4 : Env where
  run := fun cmd _ =>
    if cmd = ["outguess", "--version"] then .ok ⟨1, "", "outguess: unknown option"⟩
    else if cmd = ["outguess", "-h"] then .ok ⟨0, "usage: outguess", ""⟩
    else .error (.fileNotFound "missing")
  pathExists := fun _ => false
  getsize := fun _ => 0
  readBytes := fun _ => []
  tempDir := "/tmp/stego_model"

/-- A world where the string extractor produces two raw lines, one longer
than 5 characters. -/
def envStrings : Env where
  run := fun cmd _ =>
    if cmd = ["strings", "f.bin"] then .ok ⟨0, "secret message\nhi", ""⟩
    else .ok ⟨0, "", ""⟩
  pathExists := fun _ => true
  getsize := fun _ => 0
  readBytes := fun _ => []
  tempDir := "/tmp/stego_model"

/-- A world where the passphrase extractor succeeds and leaves a
side-channel file whose bytes `[104, 255, 105]` are not valid UTF-8
(`0xFF` can start no sequence). -/
def envC7 : Env where
  run := fun _ _ => .ok ⟨0, "", ""⟩
  pathExists := fun p => p == "/tmp/stego_model/steghide_output.txt"
  getsize := fun _ => 0
  readBytes := fun _ => [104, 255, 105]
  tempDir := "/tmp/stego_model"

/-- The tool headers a rendering emits, in order. -/
def headersOf (l : List RLine) : List String :=
  l.filterMap (fun x => match x with | .header t => some t | _ => none)

/-- The report used to separate the two renderers: `zsteg` ran, failed
(`success=false`, no error field), but produced output. -/
def arC8 : JObj :=
  [("zsteg", JVal.obj [("tool", JVal.s "zsteg"), ("output", JVal.s "b1,rgb,lsb: hidden"),
    ("errors", JVal.s ""), ("success", JVal.b false)])]

/-- Relation between entries of two reports: same key, and same value
except possibly at the distinguished key `ex`. -/
def entryRel (ex : String) (a b : String × JVal) : Prop :=
  a.1 = b.1 ∧ (a.1 ≠ ex → a.2 = b.2)

/-- Relation between two step lists: same tool names in the same order,
and the same runner outcome except possibly for the tool `ex`. -/
def stepRel (ex : String) (a b : String × Except PyExn (JObj × List Cmd)) : Prop :=
  a.1 = b.1 ∧ (a.1 ≠ ex → a.2 = b.2)

/-- A world where exiftool emits the empty JSON array `[]`. -/
def envC5 : Env where
  run := fun cmd _ =>
    if cmd = ["exiftool", "-j", "f.jpg"] then .ok ⟨0, "[]", ""⟩ else .ok ⟨0, "", ""⟩
  pathExists := fun _ => true
  getsize := fun _ => 0
  readBytes := fun _ => []
  tempDir := "/tmp/stego_model"

/-- A world where exiftool emits a one-element JSON array. -/
def envExif : Env where
  run := fun cmd _ =>
    if cmd = ["exiftool", "-j", "f.jpg"] then .ok ⟨0, "[1]", ""⟩ else .ok ⟨0, "", ""⟩
  pathExists := fun _ => true
  getsize := fun _ => 0
  readBytes := fun _ => []
  tempDir := "/tmp/stego_model"

/-! ## Round-trip lemmas for the JSON serializer and parser -/

theorem digitChr_isDigit (k : Nat) : (digitChr k).isDigit = true := by
  unfold digitChr
  split <;> decide

theorem digitVal_digitChr (k : Nat) (h : k < 10) : digitVal (digitChr k) = k := by
  interval_cases k <;> decide

theorem hexVal_hexChr (k : Nat) (h : k < 16) : hexVal (hexChr k) = some k := by
  interval_cases k <;> decide

theorem hex4_toHex4 (n : Nat) (h : n < 0x10000) :
    hex4 (hexChr (n / 4096 % 16)) (hexChr (n / 256 % 16)) (hexChr (n / 16 % 16))
      (hexChr (n % 16)) = some n := by
  unfold hex4
  rw [hexVal_hexChr _ (by omega), hexVal_hexChr _ (by omega), hexVal_hexChr _ (by omega),
    hexVal_hexChr _ (by omega)]
  simp only [Option.some.injEq]
  omega

theorem natDecAux_digits (f : Nat) : ∀ (n : Nat), ∀ c ∈ natDecAux f n, c.isDigit = true := by
  induction f with
  | zero =>
    intro n c hc
    simp [natDecAux] at hc
  | succ f ih =>
    intro n c hc
    unfold natDecAux at hc
    split at hc
    · simp only [List.mem_singleton] at hc
      subst hc
      exact digitChr_isDigit n
    · rcases List.mem_append.mp hc with h1 | h2
      · exact ih _ c h1
      · simp only [List.mem_singleton] at h2
        subst h2
        exact digitChr_isDigit _

theorem natDecAux_ne_nil (f n : Nat) (h : n < f) : natDecAux f n ≠ [] := by
  cases f with
  | zero => omega
  | succ f =>
    unfold natDecAux
    split
    · simp
    · simp

theorem digitsToNat_append_one (l : List Char) (c : Char) :
    digitsToNat (l ++ [c]) = digitsToNat l * 10 + digitVal c := by
  simp [digitsToNat, List.foldl_append]

theorem digitsToNat_natDecAux (f : Nat) : ∀ n, n < f → digitsToNat (natDecAux f n) = n := by
  induction f with
  | zero => intro n h; omega
  | succ f ih =>
    intro n h
    unfold natDecAux
    split
    · rename_i h10
      simp [digitsToNat, digitVal_digitChr n h10]
    · rename_i h10
      rw [digitsToNat_append_one, ih (n / 10) (by omega), digitVal_digitChr (n % 10) (by omega)]
      omega

theorem takeDigits_all (rest : List Char)
    (hrest : rest = [] ∨ (rest.headD ' ').isDigit = false) :
    ∀ l : List Char, (∀ c ∈ l, c.isDigit = true) → takeDigits (l ++ rest) = (l, rest) := by
  intro l
  induction l with
  | nil =>
    intro _
    simp only [List.nil_append]
    cases rest with
    | nil => rfl
    | cons r0 r' =>
      rcases hrest with h | h
      · cases h
      · simp only [List.headD_cons] at h
        simp [takeDigits, h]
  | cons c l' ih =>
    intro hl
    have hc := hl c (List.mem_cons_self _ _)
    simp only [List.cons_append]
    unfold takeDigits
    rw [if_pos hc, ih (fun x hx => hl x (List.mem_cons_of_mem _ hx))]

theorem natDec_digits (n : Nat) : ∀ c ∈ natDec n, c.isDigit = true :=
  natDecAux_digits (n + 1) n

theorem natDec_ne_nil (n : Nat) : natDec n ≠ [] :=
  natDecAux_ne_nil (n + 1) n (by omega)

theorem digitsToNat_natDec (n : Nat) : digitsToNat (natDec n) = n :=
  digitsToNat_natDecAux (n + 1) n (by omega)

theorem parseNum_natDec (n : Nat) (rest : List Char)
    (hrest : rest = [] ∨ (rest.headD ' ').isDigit = false) :
    parseNum (natDec n ++ rest) = some (n, rest) := by
  unfold parseNum
  rw [takeDigits_all rest hrest (natDec n) (natDec_digits n)]
  have hd := digitsToNat_natDec n
  cases hne : natDec n with
  | nil => exact absurd hne (natDec_ne_nil n)
  | cons a l =>
    rw [hne] at hd
    simp [List.isEmpty, hd]

theorem skipWs_replicate (k : Nat) (l : List Char) :
    skipWs (List.replicate k ' ' ++ l) = skipWs l := by
  induction k with
  | zero => rfl
  | succ k ih => simpa [List.replicate_succ, skipWs, isWsChar] using ih

theorem skipWs_ind2 (d : Nat) (l : List Char) : skipWs (ind2 d ++ l) = skipWs l :=
  skipWs_replicate (2 * d) l

theorem skipWs_newline (l : List Char) : skipWs ('\n' :: l) = skipWs l := rfl

theorem skipWs_not_ws (c : Char) (l : List Char) (h : isWsChar c = false) :
    skipWs (c :: l) = c :: l := by
  simp [skipWs, h]

theorem isDigit_not_ws (c : Char) (h : c.isDigit = true) : isWsChar c = false := by
  by_contra hw
  rw [Bool.not_eq_false] at hw
  simp only [isWsChar, Bool.or_eq_true, beq_iff_eq] at hw
  rcases hw with ((h1 | h1) | h1) | h1 <;> subst h1 <;> exact absurd h (by decide)

theorem isDigit_ne (c x : Char) (h : c.isDigit = true) (hx : x.isDigit = false) : c ≠ x := by
  intro he
  subst he
  rw [h] at hx
  cases hx

theorem natDec_shape (n : Nat) : ∃ c cs, natDec n = c :: cs ∧ c.isDigit = true := by
  cases hne : natDec n with
  | nil => exact absurd hne (natDec_ne_nil n)
  | cons c cs =>
    refine ⟨c, cs, rfl, natDec_digits n c ?_⟩
    rw [hne]
    exact List.mem_cons_self _ _

/-- The first character of any serialized value: never whitespace, never a
closing bracket. -/
theorem serVal_shape (d : Nat) (v : JVal) :
    ∃ c cs, serVal d v = c :: cs ∧ isWsChar c = false ∧ c ≠ ']' ∧ c ≠ '}' := by
  cases v with
  | null => exact ⟨'n', _, rfl, by decide, by decide, by decide⟩
  | b bv =>
    cases bv with
    | true => exact ⟨'t', _, rfl, by decide, by decide, by decide⟩
    | false => exact ⟨'f', _, rfl, by decide, by decide, by decide⟩
  | i n =>
    show ∃ c cs, serInt n = c :: cs ∧ _
    unfold serInt
    by_cases hn : n < 0
    · rw [if_pos hn]
      exact ⟨'-', _, rfl, by decide, by decide, by decide⟩
    · rw [if_neg hn]
      obtain ⟨c, cs, hcs, hdig⟩ := natDec_shape n.toNat
      exact ⟨c, cs, hcs, isDigit_not_ws c hdig,
        isDigit_ne c ']' hdig (by decide), isDigit_ne c '}' hdig (by decide)⟩
  | s v => exact ⟨'"', _, rfl, by decide, by decide, by decide⟩
  | arr vs =>
    cases vs with
    | nil => exact ⟨'[', _, rfl, by decide, by decide, by decide⟩
    | cons x xs => exact ⟨'[', _, rfl, by decide, by decide, by decide⟩
  | obj kvs =>
    cases kvs with
    | nil => exact ⟨'{', _, rfl, by decide, by decide, by decide⟩
    | cons kv kvs => exact ⟨'{', _, rfl, by decide, by decide, by decide⟩

theorem parseVal_ws_replicate (f k : Nat) (s : List Char) :
    parseVal f (List.replicate k ' ' ++ s) = parseVal f s := by
  cases f with
  | zero => rfl
  | succ f =>
    unfold parseVal
    rw [skipWs_replicate]

theorem parseVal_ws_newline (f : Nat) (s : List Char) :
    parseVal f ('\n' :: s) = parseVal f s := by
  cases f with
  | zero => rfl
  | succ f =>
    unfold parseVal
    rw [skipWs_newline]

theorem parseElems_ws (f k : Nat) (s : List Char) :
    parseElems f ('\n' :: (List.replicate k ' ' ++ s)) = parseElems f s := by
  cases f with
  | zero => rfl
  | succ f =>
    unfold parseElems
    rw [parseVal_ws_newline, parseVal_ws_replicate]

theorem parseMembers_ws (f k : Nat) (s : List Char) :
    parseMembers f ('\n' :: (List.replicate k ' ' ++ s)) = parseMembers f s := by
  cases f with
  | zero => rfl
  | succ f =>
    unfold parseMembers
    rw [skipWs_newline, skipWs_replicate]

/-- Four serialized hex digits parse back to the value. -/
theorem parseHex4_toHex4 (n : Nat) (h : n < 0x10000) (R : List Char) :
    parseHex4 (toHex4 n ++ R) = some (n, R) := by
  unfold toHex4
  simp only [List.cons_append, List.nil_append, parseHex4, hex4_toHex4 n h]

/-- Decoding a `\uXXXX` escape of a non-surrogate code point. -/
theorem uEsc_basic (n : Nat) (t R : List Char)
    (hp : parseHex4 t = some (n, R))
    (hlo : ¬(0xD800 ≤ n ∧ n ≤ 0xDBFF)) (hhi : ¬(0xDC00 ≤ n ∧ n ≤ 0xDFFF)) :
    uEsc t = some (Char.ofNat n, R) := by
  unfold uEsc
  rw [hp]
  try simp only []
  rw [if_neg hlo, if_neg hhi]

/-- Decoding a surrogate-pair escape of an astral code point. -/
theorem uEsc_pair (hi lo : Nat) (t r3 R : List Char)
    (hp1 : parseHex4 t = some (hi, '\\' :: 'u' :: r3))
    (hp2 : parseHex4 r3 = some (lo, R))
    (hhi : 0xD800 ≤ hi ∧ hi ≤ 0xDBFF) (hlo : 0xDC00 ≤ lo ∧ lo ≤ 0xDFFF) :
    uEsc t = some (Char.ofNat (0x10000 + (hi - 0xD800) * 0x400 + (lo - 0xDC00)), R) := by
  unfold uEsc
  rw [hp1]
  try simp only []
  rw [if_pos hhi]
  try simp only []
  rw [hp2]
  try simp only []
  rw [if_pos hlo]

theorem escStep_u (r : List Char) : escStep ('u' :: r) = uEsc r := rfl

/-- One parsing step on a backslash escape. -/
theorem parseStrBodyF_esc (f : Nat) (r r2 : List Char) (e : Char)
    (h : escStep r = some (e, r2)) :
    parseStrBodyF (f + 1) ('\\' :: r) =
      (parseStrBodyF f r2).map (fun p => (e :: p.1, p.2)) := by
  conv_lhs => unfold parseStrBodyF
  rw [if_neg (show ¬('\\' : Char) = '"' by decide),
    if_pos (show ('\\' : Char) = '\\' from rfl), h]

/-- One parsing step on an unescaped character. -/
theorem parseStrBodyF_raw (f : Nat) (c : Char) (h1 : ¬c = '"') (h2 : ¬c = '\\')
    (r : List Char) :
    parseStrBodyF (f + 1) (c :: r) =
      (parseStrBodyF f r).map (fun p => (c :: p.1, p.2)) := by
  conv_lhs => unfold parseStrBodyF
  rw [if_neg h1, if_neg h2]

/-- The validity bounds of a character's code point. -/
theorem char_valid_bounds (c : Char) :
    c.toNat < 0xD800 ∨ (0xDFFF < c.toNat ∧ c.toNat < 0x110000) := c.valid

/-- Round trip for string bodies at the fuel level: parsing an escaped string
body recovers the original characters, given enough fuel. -/
theorem parseStrBodyF_ser (l : List Char) :
    ∀ (f : Nat) (rest : List Char), (serStrBody l).length < f →
      parseStrBodyF f (serStrBody l ++ '"' :: rest) = some (l, rest) := by
  induction l with
  | nil =>
    intro f rest hf
    cases f with
    | zero => omega
    | succ f => rfl
  | cons c l' ih =>
    intro f rest hf
    cases f with
    | zero => omega
    | succ f =>
      rw [show serStrBody (c :: l') = escChar c ++ serStrBody l' from rfl,
        List.length_append] at hf
      rw [show serStrBody (c :: l') = escChar c ++ serStrBody l' from rfl,
        List.append_assoc]
      by_cases h1 : c = '"'
      · subst h1
        rw [show escChar '"' = ['\\', '"'] from rfl] at hf ⊢
        simp only [List.length_cons, List.length_nil] at hf
        have hstep : escStep ('"' :: (serStrBody l' ++ '"' :: rest)) =
            some ('"', serStrBody l' ++ '"' :: rest) := rfl
        rw [List.cons_append, List.cons_append, List.nil_append,
          parseStrBodyF_esc f _ _ _ hstep, ih f rest (by omega)]
        rfl
      by_cases h2 : c = '\\'
      · subst h2
        rw [show escChar '\\' = ['\\', '\\'] from rfl] at hf ⊢
        simp only [List.length_cons, List.length_nil] at hf
        have hstep : escStep ('\\' :: (serStrBody l' ++ '"' :: rest)) =
            some ('\\', serStrBody l' ++ '"' :: rest) := rfl
        rw [List.cons_append, List.cons_append, List.nil_append,
          parseStrBodyF_esc f _ _ _ hstep, ih f rest (by omega)]
        rfl
      by_cases h3 : c = Char.ofNat 8
      · subst h3
        rw [show escChar (Char.ofNat 8) = ['\\', 'b'] from rfl] at hf ⊢
        simp only [List.length_cons, List.length_nil] at hf
        have hstep : escStep ('b' :: (serStrBody l' ++ '"' :: rest)) =
            some (Char.ofNat 8, serStrBody l' ++ '"' :: rest) := rfl
        rw [List.cons_append, List.cons_append, List.nil_append,
          parseStrBodyF_esc f _ _ _ hstep, ih f rest (by omega)]
        rfl
      by_cases h4 : c = Char.ofNat 9
      · subst h4
        rw [show escChar (Char.ofNat 9) = ['\\', 't'] from rfl] at hf ⊢
        simp only [List.length_cons, List.length_nil] at hf
        have hstep : escStep ('t' :: (serStrBody l' ++ '"' :: rest)) =
            some (Char.ofNat 9, serStrBody l' ++ '"' :: rest) := rfl
        rw [List.cons_append, List.cons_append, List.nil_append,
          parseStrBodyF_esc f _ _ _ hstep, ih f rest (by omega)]
        rfl
      by_cases h5 : c = Char.ofNat 10
      · subst h5
        rw [show escChar (Char.ofNat 10) = ['\\', 'n'] from rfl] at hf ⊢
        simp only [List.length_cons, List.length_nil] at hf
        have hstep : escStep ('n' :: (serStrBody l' ++ '"' :: rest)) =
            some (Char.ofNat 10, serStrBody l' ++ '"' :: rest) := rfl
        rw [List.cons_append, List.cons_append, List.nil_append,
          parseStrBodyF_esc f _ _ _ hstep, ih f rest (by omega)]
        rfl
      by_cases h6 : c = Char.ofNat 12
      · subst h6
        rw [show escChar (Char.ofNat 12) = ['\\', 'f'] from rfl] at hf ⊢
        simp only [List.length_cons, List.length_nil] at hf
        have hstep : escStep ('f' :: (serStrBody l' ++ '"' :: rest)) =
            some (Char.ofNat 12, serStrBody l' ++ '"' :: rest) := rfl
        rw [List.cons_append, List.cons_append, List.nil_append,
          parseStrBodyF_esc f _ _ _ hstep, ih f rest (by omega)]
        rfl
      by_cases h7 : c = Char.ofNat 13
      · subst h7
        rw [show escChar (Char.ofNat 13) = ['\\', 'r'] from rfl] at hf ⊢
        simp only [List.length_cons, List.length_nil] at hf
        have hstep : escStep ('r' :: (serStrBody l' ++ '"' :: rest)) =
            some (Char.ofNat 13, serStrBody l' ++ '"' :: rest) := rfl
        rw [List.cons_append, List.cons_append, List.nil_append,
          parseStrBodyF_esc f _ _ _ hstep, ih f rest (by omega)]
        rfl
      by_cases h8 : c.toNat < 32
      · have hesc : escChar c = '\\' :: 'u' :: toHex4 c.toNat := by
          unfold escChar
          rw [if_neg h1, if_neg h2, if_neg h3, if_neg h4, if_neg h5, if_neg h6, if_neg h7,
            if_pos h8]
        rw [hesc] at hf ⊢
        simp only [List.length_cons, toHex4, List.length_nil] at hf
        have hstep : escStep ('u' :: (toHex4 c.toNat ++ (serStrBody l' ++ '"' :: rest))) =
            some (Char.ofNat c.toNat, serStrBody l' ++ '"' :: rest) := by
          rw [escStep_u]
          exact uEsc_basic c.toNat _ _ (parseHex4_toHex4 c.toNat (by omega) _)
            (by omega) (by omega)
        rw [List.cons_append, List.cons_append, parseStrBodyF_esc f _ _ _ hstep,
          ih f rest (by omega), Char.ofNat_toNat]
        rfl
      by_cases h9 : c.toNat < 128
      · have hesc : escChar c = [c] := by
          unfold escChar
          rw [if_neg h1, if_neg h2, if_neg h3, if_neg h4, if_neg h5, if_neg h6, if_neg h7,
            if_neg h8, if_pos h9]
        rw [hesc] at hf ⊢
        simp only [List.length_cons, List.length_nil] at hf
        rw [List.cons_append, List.nil_append, parseStrBodyF_raw f c h1 h2,
          ih f rest (by omega)]
        rfl
      by_cases h10 : c.toNat < 0x10000
      · have hesc : escChar c = '\\' :: 'u' :: toHex4 c.toNat := by
          unfold escChar
          rw [if_neg h1, if_neg h2, if_neg h3, if_neg h4, if_neg h5, if_neg h6, if_neg h7,
            if_neg h8, if_neg h9, if_pos h10]
        have hv := char_valid_bounds c
        rw [hesc] at hf ⊢
        simp only [List.length_cons, toHex4, List.length_nil] at hf
        have hstep : escStep ('u' :: (toHex4 c.toNat ++ (serStrBody l' ++ '"' :: rest))) =
            some (Char.ofNat c.toNat, serStrBody l' ++ '"' :: rest) := by
          rw [escStep_u]
          exact uEsc_basic c.toNat _ _ (parseHex4_toHex4 c.toNat (by omega) _)
            (by omega) (by omega)
        rw [List.cons_append, List.cons_append, parseStrBodyF_esc f _ _ _ hstep,
          ih f rest (by omega), Char.ofNat_toNat]
        rfl
      · have hesc : escChar c =
            ('\\' :: 'u' :: toHex4 (0xD800 + (c.toNat - 0x10000) / 0x400)) ++
              ('\\' :: 'u' :: toHex4 (0xDC00 + (c.toNat - 0x10000) % 0x400)) := by
          unfold escChar
          rw [if_neg h1, if_neg h2, if_neg h3, if_neg h4, if_neg h5, if_neg h6, if_neg h7,
            if_neg h8, if_neg h9, if_neg h10]
        have hv := char_valid_bounds c
        rw [hesc] at hf ⊢
        simp only [List.length_append, List.length_cons, toHex4, List.length_nil] at hf
        have hstep : escStep ('u' :: (toHex4 (0xD800 + (c.toNat - 0x10000) / 0x400) ++
            ('\\' :: 'u' :: (toHex4 (0xDC00 + (c.toNat - 0x10000) % 0x400) ++
              (serStrBody l' ++ '"' :: rest))))) =
            some (Char.ofNat c.toNat, serStrBody l' ++ '"' :: rest) := by
          rw [escStep_u]
          rw [uEsc_pair (0xD800 + (c.toNat - 0x10000) / 0x400)
            (0xDC00 + (c.toNat - 0x10000) % 0x400) _ _ _
            (parseHex4_toHex4 _ (by omega) _) (parseHex4_toHex4 _ (by omega) _)
            (by constructor <;> omega) (by constructor <;> omega)]
          rw [show 0x10000 + ((0xD800 + (c.toNat - 0x10000) / 0x400) - 0xD800) * 0x400 +
              ((0xDC00 + (c.toNat - 0x10000) % 0x400) - 0xDC00) = c.toNat by omega]
        rw [show (('\\' :: 'u' :: toHex4 (0xD800 + (c.toNat - 0x10000) / 0x400)) ++
              ('\\' :: 'u' :: toHex4 (0xDC00 + (c.toNat - 0x10000) % 0x400))) ++
              (serStrBody l' ++ '"' :: rest) =
            '\\' :: 'u' :: (toHex4 (0xD800 + (c.toNat - 0x10000) / 0x400) ++
              ('\\' :: 'u' :: (toHex4 (0xDC00 + (c.toNat - 0x10000) % 0x400) ++
                (serStrBody l' ++ '"' :: rest)))) by simp]
        rw [parseStrBodyF_esc f _ _ _ hstep, ih f rest (by omega), Char.ofNat_toNat]
        rfl

/-- Round trip for string bodies: parsing an escaped string body recovers the
original characters. -/
theorem parseStrBody_ser (l rest : List Char) :
    parseStrBody (serStrBody l ++ '"' :: rest) = some (l, rest) := by
  unfold parseStrBody
  apply parseStrBodyF_ser
  rw [List.length_append]
  simp only [List.length_cons]
  omega

theorem sizeJ_pos (v : JVal) : 1 ≤ sizeJ v := by
  cases v <;> simp [sizeJ]

/-- The size of a value bounds the length of its serialization (stated for
all sizes below `N` so the three mutual statements can share one strong
induction). -/
theorem serLen : ∀ N : Nat,
    (∀ v, sizeJ v ≤ N → ∀ d, sizeJ v ≤ (serVal d v).length) ∧
    (∀ vs, sizeListJ vs ≤ N → ∀ d, sizeListJ vs ≤ (serElemsTail d vs).length) ∧
    (∀ kvs, sizeMemsJ kvs ≤ N → ∀ d, sizeMemsJ kvs ≤ (serMemsTail d kvs).length) := by
  intro N
  induction N with
  | zero =>
    refine ⟨fun v h d => ?_, fun vs h d => ?_, fun kvs h d => ?_⟩
    · have := sizeJ_pos v
      omega
    · cases vs with
      | nil => simp [sizeListJ]
      | cons x xs =>
        simp only [sizeListJ] at h
        have := sizeJ_pos x
        omega
    · cases kvs with
      | nil => simp [sizeMemsJ]
      | cons kv kvs =>
        simp only [sizeMemsJ] at h
        have := sizeJ_pos kv.2
        omega
  | succ N ih =>
    obtain ⟨ihV, ihE, ihM⟩ := ih
    refine ⟨fun v h d => ?_, fun vs h d => ?_, fun kvs h d => ?_⟩
    · cases v with
      | null => simp only [sizeJ, serVal, List.length_cons, List.length_nil]; omega
      | b bv =>
        cases bv <;> simp only [sizeJ, serVal, List.length_cons, List.length_nil] <;> omega
      | i n =>
        show sizeJ (.i n) ≤ (serInt n).length
        unfold serInt
        by_cases hn : n < 0
        · rw [if_pos hn]
          simp only [sizeJ, List.length_cons]
          omega
        · rw [if_neg hn]
          obtain ⟨c, cs, hc, _⟩ := natDec_shape n.toNat
          rw [hc]
          simp only [sizeJ, List.length_cons]
          omega
      | s v0 => simp only [sizeJ, serVal, List.length_cons]; omega
      | arr vs =>
        cases vs with
        | nil => simp only [sizeJ, sizeListJ, serVal, List.length_cons, List.length_nil]; omega
        | cons x xs =>
          simp only [sizeJ, sizeListJ] at h ⊢
          have hx := ihV x (by omega) (d + 1)
          have hxs := ihE xs (by omega) (d + 1)
          simp only [serVal, List.length_cons, List.length_append]
          omega
      | obj kvs =>
        cases kvs with
        | nil => simp only [sizeJ, sizeMemsJ, serVal, List.length_cons, List.length_nil]; omega
        | cons kv kvs =>
          obtain ⟨k, v⟩ := kv
          simp only [sizeJ, sizeMemsJ] at h ⊢
          have hx := ihV v (by omega) (d + 1)
          have hxs := ihM kvs (by omega) (d + 1)
          simp only [serVal, serMember, List.length_cons, List.length_append]
          omega
    · cases vs with
      | nil => simp [sizeListJ]
      | cons x xs =>
        simp only [sizeListJ] at h ⊢
        have hx := ihV x (by omega) d
        have hxs := ihE xs (by omega) d
        simp only [serElemsTail, List.length_cons, List.length_append]
        omega
    · cases kvs with
      | nil => simp [sizeMemsJ]
      | cons kv kvs =>
        obtain ⟨k, v⟩ := kv
        simp only [sizeMemsJ] at h ⊢
        have hx := ihV v (by omega) d
        have hxs := ihM kvs (by omega) d
        simp only [serMemsTail, serMember, List.length_cons, List.length_append]
        omega

theorem parseVal_null (f : Nat) (r : List Char) :
    parseVal (f + 1) ('n' :: 'u' :: 'l' :: 'l' :: r) = some (JVal.null, r) := rfl

theorem parseVal_true (f : Nat) (r : List Char) :
    parseVal (f + 1) ('t' :: 'r' :: 'u' :: 'e' :: r) = some (JVal.b true, r) := rfl

theorem parseVal_false (f : Nat) (r : List Char) :
    parseVal (f + 1) ('f' :: 'a' :: 'l' :: 's' :: 'e' :: r) = some (JVal.b false, r) := rfl

theorem parseVal_quote (f : Nat) (r : List Char) :
    parseVal (f + 1) ('"' :: r) =
      (parseStrBody r).map (fun p => (JVal.s (String.mk p.1), p.2)) := rfl

theorem parseVal_minus (f : Nat) (r : List Char) :
    parseVal (f + 1) ('-' :: r) =
      (parseNum r).map (fun p => (JVal.i (-(p.1 : Int)), p.2)) := rfl

theorem parseVal_arrnil (f : Nat) (r : List Char) :
    parseVal (f + 1) ('[' :: ']' :: r) = some (JVal.arr [], r) := rfl

theorem parseVal_objnil (f : Nat) (r : List Char) :
    parseVal (f + 1) ('{' :: '}' :: r) = some (JVal.obj [], r) := rfl

theorem parseVal_lbrack (f : Nat) (r : List Char) :
    parseVal (f + 1) ('[' :: r) =
      (match skipWs r with
       | [] => none
       | c2 :: r2 =>
         if c2 = ']' then some (JVal.arr [], r2)
         else (parseElems f (c2 :: r2)).map (fun p => (JVal.arr p.1, p.2))) := rfl

theorem parseVal_lbrace (f : Nat) (r : List Char) :
    parseVal (f + 1) ('{' :: r) =
      (match skipWs r with
       | [] => none
       | c2 :: r2 =>
         if c2 = '}' then some (JVal.obj [], r2)
         else (parseMembers f (c2 :: r2)).map (fun p => (JVal.obj p.1, p.2))) := rfl

/-- Dispatch of `parseVal` on a leading decimal digit. -/
theorem parseVal_digit (f : Nat) (c : Char) (r : List Char) (hd : c.isDigit = true) :
    parseVal (f + 1) (c :: r) =
      (parseNum (c :: r)).map (fun p => (JVal.i (p.1 : Int), p.2)) := by
  conv_lhs => unfold parseVal
  rw [skipWs_not_ws c r (isDigit_not_ws c hd)]
  try simp only []
  rw [if_neg (isDigit_ne c '"' hd (by decide)), if_neg (isDigit_ne c '[' hd (by decide)),
    if_neg (isDigit_ne c '{' hd (by decide)), if_neg (isDigit_ne c 't' hd (by decide)),
    if_neg (isDigit_ne c 'f' hd (by decide)), if_neg (isDigit_ne c 'n' hd (by decide)),
    if_neg (isDigit_ne c '-' hd (by decide))]

theorem parseVal_space (f : Nat) (s : List Char) :
    parseVal f (' ' :: s) = parseVal f s := parseVal_ws_replicate f 1 s

/-- One step of `parseElems` after its leading value has been parsed. -/
theorem parseElems_step (f : Nat) (s r : List Char) (v : JVal)
    (h : parseVal f s = some (v, r)) :
    parseElems (f + 1) s =
      (match skipWs r with
       | ',' :: r2 => (parseElems f r2).map (fun p => (v :: p.1, p.2))
       | ']' :: r2 => some ([v], r2)
       | _ => none) := by
  conv_lhs => unfold parseElems
  rw [h]

/-- One step of `parseMembers` after its leading key has been parsed. -/
theorem parseMembers_step (f : Nat) (s r : List Char) (k r2 : List Char)
    (hs : skipWs s = '"' :: r) (hk : parseStrBody r = some (k, r2)) :
    parseMembers (f + 1) s =
      (match skipWs r2 with
       | ':' :: r3 =>
         (match parseVal f r3 with
          | none => none
          | some (v, r4) =>
            match skipWs r4 with
            | ',' :: r5 => (parseMembers f r5).map (fun p => ((String.mk k, v) :: p.1, p.2))
            | '}' :: r5 => some ([(String.mk k, v)], r5)
            | _ => none)
       | _ => none) := by
  conv_lhs => unfold parseMembers
  rw [hs]
  try simp only []
  rw [hk]

theorem parseElems_ind2 (f d : Nat) (s : List Char) :
    parseElems f ('\n' :: (ind2 d ++ s)) = parseElems f s := parseElems_ws f (2 * d) s

theorem parseMembers_ind2 (f d : Nat) (s : List Char) :
    parseMembers f ('\n' :: (ind2 d ++ s)) = parseMembers f s := parseMembers_ws f (2 * d) s

/-- Parsing a serialized value recovers the value: stated for every size
bound `N` (strong induction), every sufficient fuel, every indentation
depth, and every following input that cannot extend a number literal.  The
second and third conjuncts cover the element/member loops, whose input ends
with the layout's `\n`, closing indentation and closing bracket. -/
theorem roundTrip : ∀ N : Nat,
    (∀ v, sizeJ v ≤ N → ∀ f d rest, sizeJ v ≤ f → (rest.headD ' ').isDigit = false →
      parseVal f (serVal d v ++ rest) = some (v, rest)) ∧
    (∀ x xs, sizeListJ (x :: xs) ≤ N → ∀ f d d2 rest, sizeListJ (x :: xs) ≤ f →
      parseElems f (serVal d x ++ (serElemsTail d xs ++ ('\n' :: (ind2 d2 ++ (']' :: rest))))) =
        some (x :: xs, rest)) ∧
    (∀ kv kvs, sizeMemsJ (kv :: kvs) ≤ N → ∀ f d d2 rest, sizeMemsJ (kv :: kvs) ≤ f →
      parseMembers f
          (serMember d kv ++ (serMemsTail d kvs ++ ('\n' :: (ind2 d2 ++ ('}' :: rest))))) =
        some (kv :: kvs, rest)) := by
  intro N
  induction N with
  | zero =>
    refine ⟨fun v h => ?_, fun x xs h => ?_, fun kv kvs h => ?_⟩
    · intro f d rest hf hd
      have := sizeJ_pos v
      omega
    · intro f d d2 rest hf
      simp only [sizeListJ] at h
      have := sizeJ_pos x
      omega
    · intro f d d2 rest hf
      simp only [sizeMemsJ] at h
      have := sizeJ_pos kv.2
      omega
  | succ N ih =>
    obtain ⟨ihV, ihE, ihM⟩ := ih
    refine ⟨fun v hN f d rest hf hd => ?_, fun x xs hN f d d2 rest hf => ?_,
      fun kv kvs hN f d d2 rest hf => ?_⟩
    · cases v with
      | null =>
        simp only [sizeJ] at hf
        cases f with
        | zero => omega
        | succ f =>
          rw [show serVal d JVal.null ++ rest = 'n' :: 'u' :: 'l' :: 'l' :: rest from rfl,
            parseVal_null]
      | b bv =>
        simp only [sizeJ] at hf
        cases f with
        | zero => omega
        | succ f =>
          cases bv with
          | true =>
            rw [show serVal d (JVal.b true) ++ rest = 't' :: 'r' :: 'u' :: 'e' :: rest from rfl,
              parseVal_true]
          | false =>
            rw [show serVal d (JVal.b false) ++ rest =
              'f' :: 'a' :: 'l' :: 's' :: 'e' :: rest from rfl, parseVal_false]
      | i n =>
        simp only [sizeJ] at hf
        cases f with
        | zero => omega
        | succ f =>
          show parseVal (f + 1) (serInt n ++ rest) = some (JVal.i n, rest)
          unfold serInt
          by_cases hn : n < 0
          · rw [if_pos hn, List.cons_append, parseVal_minus,
              parseNum_natDec (-n).toNat rest (Or.inr hd)]
            simp only [Option.map_some', Option.some.injEq, Prod.mk.injEq, JVal.i.injEq]
            exact ⟨by omega, trivial⟩
          · rw [if_neg hn]
            obtain ⟨c, cs, hc, hcd⟩ := natDec_shape n.toNat
            rw [hc, List.cons_append, parseVal_digit f c (cs ++ rest) hcd,
              ← List.cons_append, ← hc, parseNum_natDec n.toNat rest (Or.inr hd)]
            simp only [Option.map_some', Option.some.injEq, Prod.mk.injEq, JVal.i.injEq]
            exact ⟨by omega, trivial⟩
      | s v0 =>
        simp only [sizeJ] at hf
        cases f with
        | zero => omega
        | succ f =>
          rw [show serVal d (JVal.s v0) ++ rest =
              '"' :: (serStrBody v0.data ++ ('"' :: rest)) by simp [serVal],
            parseVal_quote, parseStrBody_ser v0.data rest]
          rfl
      | arr vs =>
        cases vs with
        | nil =>
          simp only [sizeJ, sizeListJ] at hf
          cases f with
          | zero => omega
          | succ f =>
            rw [show serVal d (JVal.arr []) ++ rest = '[' :: ']' :: rest from rfl,
              parseVal_arrnil]
        | cons x xs =>
          simp only [sizeJ, sizeListJ] at hN hf
          cases f with
          | zero => omega
          | succ f =>
            obtain ⟨c2, cs2, hX, hnws, hnbr, hnbc⟩ := serVal_shape (d + 1) x
            rw [show serVal d (JVal.arr (x :: xs)) ++ rest =
                '[' :: ('\n' :: (ind2 (d + 1) ++ (serVal (d + 1) x ++ (serElemsTail (d + 1) xs ++
                  ('\n' :: (ind2 d ++ (']' :: rest))))))) by simp [serVal]]
            rw [parseVal_lbrack]
            rw [show skipWs ('\n' :: (ind2 (d + 1) ++ (serVal (d + 1) x ++
                (serElemsTail (d + 1) xs ++ ('\n' :: (ind2 d ++ (']' :: rest))))))) =
                c2 :: (cs2 ++ (serElemsTail (d + 1) xs ++ ('\n' :: (ind2 d ++ (']' :: rest))))) by
              rw [skipWs_newline, skipWs_ind2, hX, List.cons_append, skipWs_not_ws _ _ hnws]]
            try simp only []
            rw [if_neg hnbr]
            rw [show c2 :: (cs2 ++ (serElemsTail (d + 1) xs ++
                ('\n' :: (ind2 d ++ (']' :: rest))))) =
                serVal (d + 1) x ++ (serElemsTail (d + 1) xs ++
                ('\n' :: (ind2 d ++ (']' :: rest)))) by rw [hX, List.cons_append]]
            rw [ihE x xs (by simp only [sizeListJ]; omega) f (d + 1) d rest
              (by simp only [sizeListJ]; omega)]
            rfl
      | obj kvs =>
        cases kvs with
        | nil =>
          simp only [sizeJ, sizeMemsJ] at hf
          cases f with
          | zero => omega
          | succ f =>
            rw [show serVal d (JVal.obj []) ++ rest = '{' :: '}' :: rest from rfl,
              parseVal_objnil]
        | cons kv kvs =>
          obtain ⟨k, v⟩ := kv
          simp only [sizeJ, sizeMemsJ] at hN hf
          cases f with
          | zero => omega
          | succ f =>
            rw [show serVal d (JVal.obj ((k, v) :: kvs)) ++ rest =
                '{' :: ('\n' :: (ind2 (d + 1) ++ (serMember (d + 1) (k, v) ++
                  (serMemsTail (d + 1) kvs ++ ('\n' :: (ind2 d ++ ('}' :: rest))))))) by
              simp [serVal]]
            rw [parseVal_lbrace]
            rw [show skipWs ('\n' :: (ind2 (d + 1) ++ (serMember (d + 1) (k, v) ++
                (serMemsTail (d + 1) kvs ++ ('\n' :: (ind2 d ++ ('}' :: rest))))))) =
                '"' :: ((serStrBody k.data ++ ('"' :: ':' :: ' ' :: serVal (d + 1) v)) ++
                  (serMemsTail (d + 1) kvs ++ ('\n' :: (ind2 d ++ ('}' :: rest))))) by
              rw [skipWs_newline, skipWs_ind2,
                show serMember (d + 1) (k, v) ++ (serMemsTail (d + 1) kvs ++
                    ('\n' :: (ind2 d ++ ('}' :: rest)))) =
                  '"' :: ((serStrBody k.data ++ ('"' :: ':' :: ' ' :: serVal (d + 1) v)) ++
                    (serMemsTail (d + 1) kvs ++ ('\n' :: (ind2 d ++ ('}' :: rest))))) from rfl,
                skipWs_not_ws _ _ (by decide)]]
            try simp only []
            rw [if_neg (show ¬('"' : Char) = '}' by decide)]
            rw [show '"' :: ((serStrBody k.data ++ ('"' :: ':' :: ' ' :: serVal (d + 1) v)) ++
                (serMemsTail (d + 1) kvs ++ ('\n' :: (ind2 d ++ ('}' :: rest))))) =
                serMember (d + 1) (k, v) ++ (serMemsTail (d + 1) kvs ++
                ('\n' :: (ind2 d ++ ('}' :: rest)))) from rfl]
            rw [ihM (k, v) kvs (by simp only [sizeMemsJ]; omega) f (d + 1) d rest
              (by simp only [sizeMemsJ]; omega)]
            rfl
    · cases xs with
      | nil =>
        simp only [sizeListJ] at hN hf
        cases f with
        | zero => omega
        | succ f =>
          rw [show serVal d x ++ (serElemsTail d [] ++ ('\n' :: (ind2 d2 ++ (']' :: rest)))) =
              serVal d x ++ ('\n' :: (ind2 d2 ++ (']' :: rest))) from rfl]
          rw [parseElems_step f _ ('\n' :: (ind2 d2 ++ (']' :: rest))) x
            (ihV x (by omega) f d ('\n' :: (ind2 d2 ++ (']' :: rest))) (by omega)
              (by rw [List.headD_cons]; decide))]
          rw [show skipWs ('\n' :: (ind2 d2 ++ (']' :: rest))) = ']' :: rest by
            rw [skipWs_newline, skipWs_ind2, skipWs_not_ws _ _ (by decide)]]
          rfl
      | cons y ys =>
        simp only [sizeListJ] at hN hf
        cases f with
        | zero => omega
        | succ f =>
          rw [show serVal d x ++ (serElemsTail d (y :: ys) ++
              ('\n' :: (ind2 d2 ++ (']' :: rest)))) =
              serVal d x ++ (',' :: ('\n' :: (ind2 d ++ (serVal d y ++ (serElemsTail d ys ++
                ('\n' :: (ind2 d2 ++ (']' :: rest)))))))) by
            simp [serElemsTail]]
          rw [parseElems_step f _ (',' :: ('\n' :: (ind2 d ++ (serVal d y ++
              (serElemsTail d ys ++ ('\n' :: (ind2 d2 ++ (']' :: rest)))))))) x
            (ihV x (by omega) f d _ (by omega) (by rw [List.headD_cons]; decide))]
          rw [show skipWs (',' :: ('\n' :: (ind2 d ++ (serVal d y ++ (serElemsTail d ys ++
              ('\n' :: (ind2 d2 ++ (']' :: rest)))))))) =
              ',' :: ('\n' :: (ind2 d ++ (serVal d y ++ (serElemsTail d ys ++
              ('\n' :: (ind2 d2 ++ (']' :: rest))))))) from
            skipWs_not_ws _ _ (by decide)]
          try simp only []
          rw [parseElems_ind2, ihE y ys (by simp only [sizeListJ]; omega) f d d2 rest
            (by simp only [sizeListJ]; omega)]
          rfl
    · obtain ⟨k, v⟩ := kv
      cases kvs with
      | nil =>
        simp only [sizeMemsJ] at hN hf
        cases f with
        | zero => omega
        | succ f =>
          rw [show serMember d (k, v) ++ (serMemsTail d [] ++
              ('\n' :: (ind2 d2 ++ ('}' :: rest)))) =
              serMember d (k, v) ++ ('\n' :: (ind2 d2 ++ ('}' :: rest))) from rfl]
          rw [parseMembers_step f _
            ((serStrBody k.data ++ ('"' :: ':' :: ' ' :: serVal d v)) ++
              ('\n' :: (ind2 d2 ++ ('}' :: rest))))
            k.data (':' :: ' ' :: (serVal d v ++ ('\n' :: (ind2 d2 ++ ('}' :: rest)))))
            (by
              rw [show serMember d (k, v) ++ ('\n' :: (ind2 d2 ++ ('}' :: rest))) =
                '"' :: ((serStrBody k.data ++ ('"' :: ':' :: ' ' :: serVal d v)) ++
                  ('\n' :: (ind2 d2 ++ ('}' :: rest)))) from rfl]
              exact skipWs_not_ws _ _ (by decide))
            (by
              rw [show (serStrBody k.data ++ ('"' :: ':' :: ' ' :: serVal d v)) ++
                  ('\n' :: (ind2 d2 ++ ('}' :: rest))) =
                  serStrBody k.data ++ ('"' :: (':' :: ' ' :: (serVal d v ++
                    ('\n' :: (ind2 d2 ++ ('}' :: rest)))))) by simp]
              exact parseStrBody_ser k.data _)]
          rw [show skipWs (':' :: ' ' :: (serVal d v ++ ('\n' :: (ind2 d2 ++ ('}' :: rest))))) =
              ':' :: ' ' :: (serVal d v ++ ('\n' :: (ind2 d2 ++ ('}' :: rest)))) from
            skipWs_not_ws _ _ (by decide)]
          try simp only []
          rw [parseVal_space, ihV v (by omega) f d ('\n' :: (ind2 d2 ++ ('}' :: rest)))
            (by omega) (by rw [List.headD_cons]; decide)]
          try simp only []
          rw [show skipWs ('\n' :: (ind2 d2 ++ ('}' :: rest))) = '}' :: rest by
            rw [skipWs_newline, skipWs_ind2, skipWs_not_ws _ _ (by decide)]]
          rfl
      | cons kv2 ys =>
        simp only [sizeMemsJ] at hN hf
        cases f with
        | zero => omega
        | succ f =>
          rw [show serMember d (k, v) ++ (serMemsTail d (kv2 :: ys) ++
              ('\n' :: (ind2 d2 ++ ('}' :: rest)))) =
              serMember d (k, v) ++ (',' :: ('\n' :: (ind2 d ++ (serMember d kv2 ++
                (serMemsTail d ys ++ ('\n' :: (ind2 d2 ++ ('}' :: rest)))))))) by
            simp [serMemsTail]]
          rw [parseMembers_step f _
            ((serStrBody k.data ++ ('"' :: ':' :: ' ' :: serVal d v)) ++
              (',' :: ('\n' :: (ind2 d ++ (serMember d kv2 ++ (serMemsTail d ys ++
                ('\n' :: (ind2 d2 ++ ('}' :: rest)))))))))
            k.data (':' :: ' ' :: (serVal d v ++ (',' :: ('\n' :: (ind2 d ++ (serMember d kv2 ++
              (serMemsTail d ys ++ ('\n' :: (ind2 d2 ++ ('}' :: rest))))))))))
            (by
              rw [show serMember d (k, v) ++ (',' :: ('\n' :: (ind2 d ++ (serMember d kv2 ++
                  (serMemsTail d ys ++ ('\n' :: (ind2 d2 ++ ('}' :: rest)))))))) =
                '"' :: ((serStrBody k.data ++ ('"' :: ':' :: ' ' :: serVal d v)) ++
                  (',' :: ('\n' :: (ind2 d ++ (serMember d kv2 ++ (serMemsTail d ys ++
                    ('\n' :: (ind2 d2 ++ ('}' :: rest))))))))) from rfl]
              exact skipWs_not_ws _ _ (by decide))
            (by
              rw [show (serStrBody k.data ++ ('"' :: ':' :: ' ' :: serVal d v)) ++
                  (',' :: ('\n' :: (ind2 d ++ (serMember d kv2 ++ (serMemsTail d ys ++
                    ('\n' :: (ind2 d2 ++ ('}' :: rest)))))))) =
                  serStrBody k.data ++ ('"' :: (':' :: ' ' :: (serVal d v ++
                    (',' :: ('\n' :: (ind2 d ++ (serMember d kv2 ++ (serMemsTail d ys ++
                      ('\n' :: (ind2 d2 ++ ('}' :: rest)))))))))))  by simp]
              exact parseStrBody_ser k.data _)]
          rw [show skipWs (':' :: ' ' :: (serVal d v ++ (',' :: ('\n' :: (ind2 d ++
              (serMember d kv2 ++ (serMemsTail d ys ++
                ('\n' :: (ind2 d2 ++ ('}' :: rest)))))))))) =
              ':' :: ' ' :: (serVal d v ++ (',' :: ('\n' :: (ind2 d ++ (serMember d kv2 ++
                (serMemsTail d ys ++ ('\n' :: (ind2 d2 ++ ('}' :: rest))))))))) from
            skipWs_not_ws _ _ (by decide)]
          try simp only []
          rw [parseVal_space, ihV v (by omega) f d
            (',' :: ('\n' :: (ind2 d ++ (serMember d kv2 ++ (serMemsTail d ys ++
              ('\n' :: (ind2 d2 ++ ('}' :: rest))))))))
            (by omega) (by rw [List.headD_cons]; decide)]
          try simp only []
          rw [show skipWs (',' :: ('\n' :: (ind2 d ++ (serMember d kv2 ++ (serMemsTail d ys ++
              ('\n' :: (ind2 d2 ++ ('}' :: rest)))))))) =
              ',' :: ('\n' :: (ind2 d ++ (serMember d kv2 ++ (serMemsTail d ys ++
              ('\n' :: (ind2 d2 ++ ('}' :: rest))))))) from
            skipWs_not_ws _ _ (by decide)]
          try simp only []
          rw [parseMembers_ind2, ihM kv2 ys (by simp only [sizeMemsJ]; omega) f d d2 rest
            (by simp only [sizeMemsJ]; omega)]
          rfl

/-- C9: serializing the in-memory results store with `save_results` and
re-parsing the written JSON document yields exactly the original mapping:
the same outer keys in their original order, the same per-report keys, and
the same field values.  The well-formedness hypothesis records that the
store came from Python dicts (pairwise-distinct keys at every level). -/
theorem save_results_round_trip (store : JObj) (_hwf : WFJ (JVal.obj store)) :
    jsonParse (save_results store) = some (JVal.obj store) := by
  have hb := (serLen (sizeJ (JVal.obj store))).1 (JVal.obj store) (le_refl _) 0
  have hv := (roundTrip (sizeJ (JVal.obj store))).1 (JVal.obj store) (le_refl _)
    ((serVal 0 (JVal.obj store)).length + 2) 0 [] (by omega) (by decide)
  rw [List.append_nil] at hv
  show (match parseVal ((serVal 0 (JVal.obj store)).length + 2)
      (serVal 0 (JVal.obj store)) with
    | some (v, rest) => if skipWs rest = [] then some v else none
    | none => none) = some (JVal.obj store)
  rw [hv]
  rfl

/-- Witness for C9: a one-report store round-trips through the persisted
JSON document. -/
theorem save_results_round_trip_witness :
    WFJ (JVal.obj [("a.png", JVal.obj
      [("file_path", JVal.s "a.png"), ("file_size", JVal.i 7)])]) ∧
    jsonParse (save_results [("a.png", JVal.obj
      [("file_path", JVal.s "a.png"), ("file_size", JVal.i 7)])]) =
      some (JVal.obj [("a.png", JVal.obj
        [("file_path", JVal.s "a.png"), ("file_size", JVal.i 7)])]) := by
  have h2 : WFJ (JVal.obj [("file_path", JVal.s "a.png"), ("file_size", JVal.i 7)]) := by
    refine WFJ.obj _ (by decide) ?_
    intro kv hkv
    rcases List.mem_cons.mp hkv with h | hkv2
    · subst h
      exact WFJ.s _
    · rcases List.mem_cons.mp hkv2 with h | h3
      · subst h
        exact WFJ.i _
      · cases h3
  have h1 : WFJ (JVal.obj [("a.png", JVal.obj
      [("file_path", JVal.s "a.png"), ("file_size", JVal.i 7)])]) := by
    refine WFJ.obj _ (by decide) ?_
    intro kv hkv
    rcases List.mem_cons.mp hkv with h | h3
    · subst h
      exact h2
    · cases h3
  exact ⟨h1, save_results_round_trip _ h1⟩

/-! ## Helper lemmas about the probe and the runners -/

theorem check_command_total (env : Env) (c : String) (h : probeSafe env c) :
    ∃ b d, check_command env c = .ok (b, d) := by
  unfold check_command
  cases hrun : env.run [c, "--version"] 5 with
  | ok r => exact ⟨_, _, rfl⟩
  | error e =>
    cases e with
    | timeoutExpired m =>
      cases hrun2 : env.run [c, "-h"] 5 with
      | ok r => exact ⟨_, _, rfl⟩
      | error e2 => exact ⟨_, _, rfl⟩
    | fileNotFound m =>
      cases hrun2 : env.run [c, "-h"] 5 with
      | ok r => exact ⟨_, _, rfl⟩
      | error e2 => exact ⟨_, _, rfl⟩
    | other m => exact absurd hrun (h m)

theorem check_command_delta (env : Env) (c : String) (b : Bool) (d : List Cmd)
    (h : check_command env c = .ok (b, d)) :
    ∀ x ∈ d, x = [c, "--version"] ∨ x = [c, "-h"] := by
  unfold check_command at h
  cases hrun : env.run [c, "--version"] 5 with
  | ok r =>
    rw [hrun] at h
    cases h
    intro x hx
    simp only [List.mem_singleton] at hx
    exact Or.inl hx
  | error e =>
    cases e with
    | timeoutExpired m =>
      rw [hrun] at h
      cases hrun2 : env.run [c, "-h"] 5 with
      | ok r =>
        rw [hrun2] at h
        cases h
        intro x hx
        rcases List.mem_pair.mp hx with h' | h' <;> simp [h']
      | error e2 =>
        rw [hrun2] at h
        cases h
        intro x hx
        rcases List.mem_pair.mp hx with h' | h' <;> simp [h']
    | fileNotFound m =>
      rw [hrun] at h
      cases hrun2 : env.run [c, "-h"] 5 with
      | ok r =>
        rw [hrun2] at h
        cases h
        intro x hx
        rcases List.mem_pair.mp hx with h' | h' <;> simp [h']
      | error e2 =>
        rw [hrun2] at h
        cases h
        intro x hx
        rcases List.mem_pair.mp hx with h' | h' <;> simp [h']
    | other m =>
      rw [hrun] at h
      cases h

/-- Destructing a successful availability probe into its seven
`_check_command` calls. -/
theorem cta_inv (env : Env) (avail : List (String × Bool)) (d0 : List Cmd)
    (h : check_tool_availability env = .ok (avail, d0)) :
    ∃ b1 d1 b2 d2 b3 d3 b4 d4 b5 d5 b6 d6 b7 d7,
      check_command env "zsteg" = .ok (b1, d1) ∧
      check_command env "steghide" = .ok (b2, d2) ∧
      check_command env "outguess" = .ok (b3, d3) ∧
      check_command env "exiftool" = .ok (b4, d4) ∧
      check_command env "binwalk" = .ok (b5, d5) ∧
      check_command env "foremost" = .ok (b6, d6) ∧
      check_command env "strings" = .ok (b7, d7) ∧
      avail = [("zsteg", b1), ("steghide", b2), ("outguess", b3), ("exiftool", b4),
               ("binwalk", b5), ("foremost", b6), ("strings", b7)] ∧
      d0 = d1 ++ d2 ++ d3 ++ d4 ++ d5 ++ d6 ++ d7 := by
  unfold check_tool_availability at h
  cases hc1 : check_command env "zsteg" with
  | error e => simp [hc1] at h
  | ok p1 =>
  obtain ⟨b1, d1⟩ := p1
  rw [hc1] at h
  cases hc2 : check_command env "steghide" with
  | error e => simp [hc2] at h
  | ok p2 =>
  obtain ⟨b2, d2⟩ := p2
  rw [hc2] at h
  cases hc3 : check_command env "outguess" with
  | error e => simp [hc3] at h
  | ok p3 =>
  obtain ⟨b3, d3⟩ := p3
  rw [hc3] at h
  cases hc4 : check_command env "exiftool" with
  | error e => simp [hc4] at h
  | ok p4 =>
  obtain ⟨b4, d4⟩ := p4
  rw [hc4] at h
  cases hc5 : check_command env "binwalk" with
  | error e => simp [hc5] at h
  | ok p5 =>
  obtain ⟨b5, d5⟩ := p5
  rw [hc5] at h
  cases hc6 : check_command env "foremost" with
  | error e => simp [hc6] at h
  | ok p6 =>
  obtain ⟨b6, d6⟩ := p6
  rw [hc6] at h
  cases hc7 : check_command env "strings" with
  | error e => simp [hc7] at h
  | ok p7 =>
  obtain ⟨b7, d7⟩ := p7
  rw [hc7] at h
  cases h
  exact ⟨b1, d1, b2, d2, b3, d3, b4, d4, b5, d5, b6, d6, b7, d7,
    rfl, rfl, rfl, rfl, rfl, rfl, rfl, rfl, rfl⟩

theorem run_zsteg_contained (env : Env) (fp : String) (h : probeSafe env "zsteg") :
    containedResult env ["zsteg", "-a", fp] 60 (run_zsteg env fp) := by
  obtain ⟨b, d, hc⟩ := check_command_total env "zsteg" h
  unfold containedResult run_zsteg
  rw [hc]
  cases b with
  | false => exact ⟨_, _, rfl, Or.inl ⟨_, rfl⟩⟩
  | true =>
    cases hr : env.run ["zsteg", "-a", fp] 60 with
    | ok r => exact ⟨_, _, rfl, Or.inr ⟨r, rfl, rfl⟩⟩
    | error e =>
      cases e with
      | timeoutExpired m => exact ⟨_, _, rfl, Or.inl ⟨_, rfl⟩⟩
      | fileNotFound m => exact ⟨_, _, rfl, Or.inl ⟨_, rfl⟩⟩
      | other m => exact ⟨_, _, rfl, Or.inl ⟨_, rfl⟩⟩

theorem run_steghide_contained (env : Env) (fp pw : String)
    (h : probeSafe env "steghide") :
    containedResult env (steghideCmd env fp pw) 30 (run_steghide env fp pw) := by
  obtain ⟨b, d, hc⟩ := check_command_total env "steghide" h
  unfold containedResult run_steghide
  rw [hc]
  cases b with
  | false => exact ⟨_, _, rfl, Or.inl ⟨_, rfl⟩⟩
  | true =>
    cases hr : env.run (steghideCmd env fp pw) 30 with
    | ok r => exact ⟨_, _, rfl, Or.inr ⟨r, rfl, rfl⟩⟩
    | error e => exact ⟨_, _, rfl, Or.inl ⟨_, rfl⟩⟩

theorem run_outguess_contained (env : Env) (fp : String) (h : probeSafe env "outguess") :
    containedResult env ["outguess", "-r", fp, env.tempDir ++ "/outguess_output.txt"] 30
      (run_outguess env fp) := by
  obtain ⟨b, d, hc⟩ := check_command_total env "outguess" h
  unfold containedResult run_outguess
  rw [hc]
  cases b with
  | false => exact ⟨_, _, rfl, Or.inl ⟨_, rfl⟩⟩
  | true =>
    cases hr : env.run ["outguess", "-r", fp, env.tempDir ++ "/outguess_output.txt"] 30 with
    | ok r => exact ⟨_, _, rfl, Or.inr ⟨r, rfl, rfl⟩⟩
    | error e => exact ⟨_, _, rfl, Or.inl ⟨_, rfl⟩⟩

theorem run_exiftool_contained (env : Env) (fp : String) (h : probeSafe env "exiftool") :
    containedResult env ["exiftool", "-j", fp] 30 (run_exiftool env fp) := by
  obtain ⟨b, d, hc⟩ := check_command_total env "exiftool" h
  unfold containedResult run_exiftool
  rw [hc]
  cases b with
  | false => exact ⟨_, _, rfl, Or.inl ⟨_, rfl⟩⟩
  | true =>
    cases hr : env.run ["exiftool", "-j", fp] 30 with
    | ok r =>
      cases hm : exiftoolMetadata r.stdout with
      | ok metadata =>
        refine ⟨[("tool", JVal.s "exiftool"), ("metadata", metadata),
                 ("raw_output", JVal.s r.stdout), ("errors", JVal.s r.stderr),
                 ("success", JVal.b (r.returncode == 0))],
                d ++ [["exiftool", "-j", fp]], ?_, Or.inr ⟨r, rfl, rfl⟩⟩
        simp only [hm, if_true]
      | error e =>
        refine ⟨errRec ("exiftool error: " ++ e.msg), d ++ [["exiftool", "-j", fp]],
                ?_, Or.inl ⟨_, rfl⟩⟩
        simp only [hm, if_true]
    | error e => exact ⟨_, _, rfl, Or.inl ⟨_, rfl⟩⟩

theorem run_binwalk_contained (env : Env) (fp : String) (h : probeSafe env "binwalk") :
    containedResult env ["binwalk", "-e", "-C", env.tempDir ++ "/binwalk_extract", fp] 60
      (run_binwalk env fp) := by
  obtain ⟨b, d, hc⟩ := check_command_total env "binwalk" h
  unfold containedResult run_binwalk
  rw [hc]
  cases b with
  | false => exact ⟨_, _, rfl, Or.inl ⟨_, rfl⟩⟩
  | true =>
    cases hr : env.run ["binwalk", "-e", "-C", env.tempDir ++ "/binwalk_extract", fp] 60 with
    | ok r =>
      cases hr2 : env.run ["binwalk", fp] 30 with
      | ok sig => exact ⟨_, _, rfl, Or.inr ⟨r, rfl, rfl⟩⟩
      | error e => exact ⟨_, _, rfl, Or.inl ⟨_, rfl⟩⟩
    | error e => exact ⟨_, _, rfl, Or.inl ⟨_, rfl⟩⟩

theorem run_foremost_contained (env : Env) (fp : String) (h : probeSafe env "foremost") :
    containedResult env ["foremost", "-i", fp, "-o", env.tempDir ++ "/foremost_output"] 60
      (run_foremost env fp) := by
  obtain ⟨b, d, hc⟩ := check_command_total env "foremost" h
  unfold containedResult run_foremost
  rw [hc]
  cases b with
  | false => exact ⟨_, _, rfl, Or.inl ⟨_, rfl⟩⟩
  | true =>
    cases hr : env.run ["foremost", "-i", fp, "-o", env.tempDir ++ "/foremost_output"] 60 with
    | ok r => exact ⟨_, _, rfl, Or.inr ⟨r, rfl, rfl⟩⟩
    | error e => exact ⟨_, _, rfl, Or.inl ⟨_, rfl⟩⟩

theorem run_strings_contained (env : Env) (fp : String) (h : probeSafe env "strings") :
    containedResult env ["strings", fp] 30 (run_strings env fp) := by
  obtain ⟨b, d, hc⟩ := check_command_total env "strings" h
  unfold containedResult run_strings
  rw [hc]
  cases b with
  | false => exact ⟨_, _, rfl, Or.inl ⟨_, rfl⟩⟩
  | true =>
    cases hr : env.run ["strings", fp] 30 with
    | ok r => exact ⟨_, _, rfl, Or.inr ⟨r, rfl, rfl⟩⟩
    | error e => exact ⟨_, _, rfl, Or.inl ⟨_, rfl⟩⟩

/-! ## Concrete environments used by witnesses and counterexamples -/

/-! ## Claim C2 -/

/-- C2: when the input file does not exist, `analyze_file` returns the
error record `{"error": "File not found"}` rather than raising, and the
command trace is empty: no availability probe and no tool invocation is
performed in that call. -/
theorem analyze_file_missing_input (env : Env) (fp pw : String)
    (h : env.pathExists fp = false) :
    analyze_file env fp pw = .ok ([("error", JVal.s "File not found")], []) := by
  simp [analyze_file, h, errRec]

/-- Witness for C2 at a concrete world whose filesystem lacks the input. -/
theorem analyze_file_missing_input_witness :
    envNone.pathExists "absent.png" = false ∧
    analyze_file envNone "absent.png" "pw" = .ok ([("error", JVal.s "File not found")], []) :=
  ⟨rfl, analyze_file_missing_input envNone "absent.png" "pw" rfl⟩

/-! ## Claim C3 -/

/-- C3 counterexample: an invocation function can propagate an exception.
When the `zsteg` probe's first `subprocess.run` raises a `PermissionError`
(possible for a non-executable file on the PATH), `_check_command` does not
catch it — its first handler only catches `TimeoutExpired`,
`FileNotFoundError` and `CalledProcessError` — and `run_zsteg` performs the
probe outside its `try`, so the exception escapes `run_zsteg` instead of
being converted into a result record. -/
theorem run_zsteg_can_propagate :
    run_zsteg envPermErr "img.png" = .error (.other "Permission denied") := rfl

/-- C3 (amended): provided the availability probe's first attempt does not
raise an exception outside `TimeoutExpired`/`FileNotFoundError`, every
tool invocation function returns a result record and never propagates an
exception; any invocation exception or timeout is converted into a record
carrying only an error message, and otherwise the record carries the
tool-specific fields plus a success flag derived from the exit code. -/
theorem tool_runners_contained (env : Env) (fp pw : String)
    (h1 : probeSafe env "zsteg") (h2 : probeSafe env "steghide")
    (h3 : probeSafe env "outguess") (h4 : probeSafe env "exiftool")
    (h5 : probeSafe env "binwalk") (h6 : probeSafe env "foremost")
    (h7 : probeSafe env "strings") :
    containedResult env ["zsteg", "-a", fp] 60 (run_zsteg env fp) ∧
    containedResult env (steghideCmd env fp pw) 30 (run_steghide env fp pw) ∧
    containedResult env ["outguess", "-r", fp, env.tempDir ++ "/outguess_output.txt"] 30
      (run_outguess env fp) ∧
    containedResult env ["exiftool", "-j", fp] 30 (run_exiftool env fp) ∧
    containedResult env ["binwalk", "-e", "-C", env.tempDir ++ "/binwalk_extract", fp] 60
      (run_binwalk env fp) ∧
    containedResult env ["foremost", "-i", fp, "-o", env.tempDir ++ "/foremost_output"] 60
      (run_foremost env fp) ∧
    containedResult env ["strings", fp] 30 (run_strings env fp) :=
  ⟨run_zsteg_contained env fp h1, run_steghide_contained env fp pw h2,
   run_outguess_contained env fp h3, run_exiftool_contained env fp h4,
   run_binwalk_contained env fp h5, run_foremost_contained env fp h6,
   run_strings_contained env fp h7⟩

/-- Witness for C3 at a concrete world where every probe completes. -/
theorem tool_runners_contained_witness :
    containedResult envOk ["zsteg", "-a", "f.png"] 60 (run_zsteg envOk "f.png") ∧
    containedResult envOk (steghideCmd envOk "f.png" "pw") 30
      (run_steghide envOk "f.png" "pw") ∧
    containedResult envOk ["outguess", "-r", "f.png", envOk.tempDir ++ "/outguess_output.txt"] 30
      (run_outguess envOk "f.png") ∧
    containedResult envOk ["exiftool", "-j", "f.png"] 30 (run_exiftool envOk "f.png") ∧
    containedResult envOk ["binwalk", "-e", "-C", envOk.tempDir ++ "/binwalk_extract", "f.png"] 60
      (run_binwalk envOk "f.png") ∧
    containedResult envOk ["foremost", "-i", "f.png", "-o", envOk.tempDir ++ "/foremost_output"] 60
      (run_foremost envOk "f.png") ∧
    containedResult envOk ["strings", "f.png"] 30 (run_strings envOk "f.png") :=
  tool_runners_contained envOk "f.png" "pw"
    (fun _ h => nomatch h) (fun _ h => nomatch h) (fun _ h => nomatch h)
    (fun _ h => nomatch h) (fun _ h => nomatch h) (fun _ h => nomatch h)
    (fun _ h => nomatch h)

/-! ## Claim C4 -/

/-- C4: the code's probe does **not** behave as the claim says.  In a world
where `outguess --version` exits 1 and `outguess -h` exits 0, the claim
requires a retry with `-h` and an "available" verdict; `_check_command`
instead returns `False` after the single `--version` attempt (its trace
records no `-h` call), because a non-zero exit code is not an exception,
and `subprocess.run` without `check=True` never raises the
`CalledProcessError` listed in the `except` clause — evidence that
the retry was meant to cover non-zero exits but cannot. -/
theorem check_command_no_retry_on_nonzero_exit :
    envC4.run ["outguess", "--version"] 5 = .ok ⟨1, "", "outguess: unknown option"⟩ ∧
    envC4.run ["outguess", "-h"] 5 = .ok ⟨0, "usage: outguess", ""⟩ ∧
    check_command envC4 "outguess" = .ok (false, [["outguess", "--version"]]) :=
  ⟨rfl, rfl, rfl⟩

/-! ## Claim C6 -/

/-- C6: for every raw stdout of the string-extraction tool, the result's
`interesting_strings` is exactly the first at-most-100 stripped lines whose
length exceeds 5 (`interestingOf`), `total_strings` is the raw line count,
and in particular a raw output of 150 lines with 120 long ones yields
`total_strings = 150` and 100 interesting strings. -/
theorem run_strings_filter (env : Env) (fp : String) (d0 : List Cmd) (r : CompletedProcess)
    (hc : check_command env "strings" = .ok (true, d0))
    (hr : env.run ["strings", fp] 30 = .ok r) :
    run_strings env fp =
      .ok ([("tool", JVal.s "strings"), ("all_strings", JVal.s r.stdout),
            ("interesting_strings", JVal.arr (((interestingOf r.stdout).take 100).map JVal.s)),
            ("total_strings", JVal.i (pySplitLines r.stdout).length),
            ("errors", JVal.s r.stderr), ("success", JVal.b (r.returncode == 0))],
           d0 ++ [["strings", fp]]) ∧
    ((interestingOf r.stdout).take 100).length ≤ 100 ∧
    ((pySplitLines r.stdout).length = 150 → (interestingOf r.stdout).length = 120 →
      (pySplitLines r.stdout).length = 150 ∧
        (((interestingOf r.stdout).take 100).map JVal.s).length = 100) := by
  refine ⟨?_, ?_, ?_⟩
  · simp [run_strings, hc, hr]
  · simp [List.length_take]
  · intro h150 h120
    refine ⟨h150, ?_⟩
    simp [List.length_take, h120]

/-- Witness for C6 at a concrete world (two raw lines, one interesting). -/
theorem run_strings_filter_witness :
    run_strings envStrings "f.bin" =
      .ok ([("tool", JVal.s "strings"), ("all_strings", JVal.s "secret message\nhi"),
            ("interesting_strings", JVal.arr [JVal.s "secret message"]),
            ("total_strings", JVal.i 2),
            ("errors", JVal.s ""), ("success", JVal.b true)],
           [["strings", "--version"], ["strings", "f.bin"]]) ∧
    ((interestingOf "secret message\nhi").take 100).length ≤ 100 :=
  have h := run_strings_filter envStrings "f.bin" [["strings", "--version"]]
    ⟨0, "secret message\nhi", ""⟩ rfl rfl
  ⟨h.1, h.2.1⟩

/-! ## Claim C7 -/

/-- C7 counterexample: the code reads the side-channel file with
`errors='ignore'`, which **drops** ill-formed bytes; it does not substitute
replacement characters as the claim states.  On bytes `[104, 255, 105]`
the extracted content is `"hi"`, not `"h�i"`. -/
theorem run_steghide_drops_invalid_bytes :
    run_steghide envC7 "img.jpg" "" =
      .ok ([("tool", JVal.s "steghide"), ("output", JVal.s ""), ("errors", JVal.s ""),
            ("extracted_content", JVal.s "hi"), ("success", JVal.b true)],
           [["steghide", "--version"],
            ["steghide", "extract", "-sf", "img.jpg", "-xf",
             "/tmp/stego_model/steghide_output.txt", "-p", ""]]) ∧
    decodeUtf8Ignore [104, 255, 105] = "hi" ∧
    decodeUtf8Replace [104, 255, 105] = "h�i" ∧
    ("hi" : String) ≠ "h�i" :=
  ⟨rfl, rfl, rfl, by decide⟩

/-- C7 (amended): for the two side-channel-file tools, after the process
exits the runner reads the side-channel file and places its text in the
extracted-content field, **dropping** ill-formed UTF-8 byte sequences
(`errors='ignore'`) rather than raising a decoding error; if the
side-channel file was never created, the extracted-content field is the
empty string and the result is not an error record. -/
theorem side_channel_reads (env : Env) (fp pw : String) (ds dg : List Cmd)
    (rs rg : CompletedProcess)
    (hcs : check_command env "steghide" = .ok (true, ds))
    (hrs : env.run (steghideCmd env fp pw) 30 = .ok rs)
    (hcg : check_command env "outguess" = .ok (true, dg))
    (hrg : env.run ["outguess", "-r", fp, env.tempDir ++ "/outguess_output.txt"] 30 = .ok rg) :
    (∃ res d, run_steghide env fp pw = .ok (res, d) ∧
      (env.pathExists (env.tempDir ++ "/steghide_output.txt") = true →
        res.lookup "extracted_content" =
          some (JVal.s (decodeUtf8Ignore (env.readBytes (env.tempDir ++ "/steghide_output.txt"))))) ∧
      (env.pathExists (env.tempDir ++ "/steghide_output.txt") = false →
        res.lookup "extracted_content" = some (JVal.s "")) ∧
      res.lookup "error" = none) ∧
    (∃ res d, run_outguess env fp = .ok (res, d) ∧
      (env.pathExists (env.tempDir ++ "/outguess_output.txt") = true →
        res.lookup "extracted_content" =
          some (JVal.s (decodeUtf8Ignore (env.readBytes (env.tempDir ++ "/outguess_output.txt"))))) ∧
      (env.pathExists (env.tempDir ++ "/outguess_output.txt") = false →
        res.lookup "extracted_content" = some (JVal.s "")) ∧
      res.lookup "error" = none) := by
  constructor
  · cases hp : env.pathExists (env.tempDir ++ "/steghide_output.txt") with
    | true =>
      refine ⟨[("tool", JVal.s "steghide"), ("output", JVal.s rs.stdout),
               ("errors", JVal.s rs.stderr),
               ("extracted_content", JVal.s
                 (decodeUtf8Ignore (env.readBytes (env.tempDir ++ "/steghide_output.txt")))),
               ("success", JVal.b (rs.returncode == 0))],
              ds ++ [steghideCmd env fp pw], ?_, fun _ => rfl, ?_, rfl⟩
      · simp [run_steghide, hcs, hrs, hp]
      · intro hcontra; cases hcontra
    | false =>
      refine ⟨[("tool", JVal.s "steghide"), ("output", JVal.s rs.stdout),
               ("errors", JVal.s rs.stderr), ("extracted_content", JVal.s ""),
               ("success", JVal.b (rs.returncode == 0))],
              ds ++ [steghideCmd env fp pw], ?_, ?_, fun _ => rfl, rfl⟩
      · simp [run_steghide, hcs, hrs, hp]
      · intro hcontra; cases hcontra
  · cases hp : env.pathExists (env.tempDir ++ "/outguess_output.txt") with
    | true =>
      refine ⟨[("tool", JVal.s "outguess"), ("output", JVal.s rg.stdout),
               ("errors", JVal.s rg.stderr),
               ("extracted_content", JVal.s
                 (decodeUtf8Ignore (env.readBytes (env.tempDir ++ "/outguess_output.txt")))),
               ("success", JVal.b (rg.returncode == 0))],
              dg ++ [["outguess", "-r", fp, env.tempDir ++ "/outguess_output.txt"]],
              ?_, fun _ => rfl, ?_, rfl⟩
      · simp [run_outguess, hcg, hrg, hp]
      · intro hcontra; cases hcontra
    | false =>
      refine ⟨[("tool", JVal.s "outguess"), ("output", JVal.s rg.stdout),
               ("errors", JVal.s rg.stderr), ("extracted_content", JVal.s ""),
               ("success", JVal.b (rg.returncode == 0))],
              dg ++ [["outguess", "-r", fp, env.tempDir ++ "/outguess_output.txt"]],
              ?_, ?_, fun _ => rfl, rfl⟩
      · simp [run_outguess, hcg, hrg, hp]
      · intro hcontra; cases hcontra

/-- Witness for C7 (amended) at a world where neither side-channel file
was created. -/
theorem side_channel_reads_witness :
    (∃ res d, run_steghide envOk "f.png" "pw" = .ok (res, d) ∧
      (envOk.pathExists (envOk.tempDir ++ "/steghide_output.txt") = true →
        res.lookup "extracted_content" =
          some (JVal.s (decodeUtf8Ignore
            (envOk.readBytes (envOk.tempDir ++ "/steghide_output.txt"))))) ∧
      (envOk.pathExists (envOk.tempDir ++ "/steghide_output.txt") = false →
        res.lookup "extracted_content" = some (JVal.s "")) ∧
      res.lookup "error" = none) ∧
    (∃ res d, run_outguess envOk "f.png" = .ok (res, d) ∧
      (envOk.pathExists (envOk.tempDir ++ "/outguess_output.txt") = true →
        res.lookup "extracted_content" =
          some (JVal.s (decodeUtf8Ignore
            (envOk.readBytes (envOk.tempDir ++ "/outguess_output.txt"))))) ∧
      (envOk.pathExists (envOk.tempDir ++ "/outguess_output.txt") = false →
        res.lookup "extracted_content" = some (JVal.s "")) ∧
      res.lookup "error" = none) :=
  side_channel_reads envOk "f.png" "pw" [["steghide", "--version"]] [["outguess", "--version"]]
    ⟨0, "", ""⟩ ⟨0, "", ""⟩ rfl rfl rfl rfl

/-! ## Aggregator lemmas (used by claims C1 and C10) -/

theorem lookup_isSome_mem {β : Type} (k : String) :
    ∀ l : List (String × β), ((l.lookup k).isSome = true ↔ k ∈ l.map Prod.fst)
  | [] => by simp [List.lookup]
  | (a, v) :: t => by
    by_cases h : k = a
    · simp [List.lookup, h]
    · have hbeq : (k == a) = false := beq_eq_false_iff_ne.mpr h
      simp [List.lookup, hbeq, h, lookup_isSome_mem k t]

theorem mem_map_fst_filter {β : Type} (p : String × β → Bool) (l : List (String × β))
    (t : String) :
    (t ∈ (l.filter p).map Prod.fst) ↔ ∃ x ∈ l, x.1 = t ∧ p x := by
  simp only [List.mem_map, List.mem_filter]
  constructor
  · rintro ⟨x, ⟨hx, hp⟩, rfl⟩; exact ⟨x, hx, rfl, hp⟩
  · rintro ⟨x, hx, rfl, hp⟩; exact ⟨x, ⟨hx, hp⟩, rfl⟩

theorem foldSteps_keys (avail : List (String × Bool)) :
    ∀ (steps : List (String × Except PyExn (JObj × List Cmd))) (ar0 : JObj)
      (tr0 : List Cmd) (ar' : JObj) (tr' : List Cmd),
      foldSteps avail steps (ar0, tr0) = .ok (ar', tr') →
      ar'.map Prod.fst = ar0.map Prod.fst ++
        (steps.filter (fun s => (avail.lookup s.1).getD false)).map Prod.fst := by
  intro steps
  induction steps with
  | nil =>
    intro ar0 tr0 ar' tr' h
    cases h
    simp
  | cons s rest ih =>
    intro ar0 tr0 ar' tr' h
    obtain ⟨n, runner⟩ := s
    rw [foldSteps] at h
    cases hmr : maybeRun avail n runner (ar0, tr0) with
    | error e => rw [hmr] at h; cases h
    | ok st2 =>
      rw [hmr] at h
      obtain ⟨ar1, tr1⟩ := st2
      have hrec := ih ar1 tr1 ar' tr' h
      unfold maybeRun at hmr
      by_cases hav : (avail.lookup n).getD false = true
      · rw [if_pos hav] at hmr
        cases hrun : runner with
        | ok p =>
          obtain ⟨r, d⟩ := p
          rw [hrun] at hmr
          cases hmr
          rw [hrec]
          simp [List.filter_cons, hav]
        | error e => rw [hrun] at hmr; cases hmr
      · rw [if_neg hav] at hmr
        cases hmr
        rw [hrec]
        simp [List.filter_cons, hav]

theorem foldSteps_trace (avail : List (String × Bool)) :
    ∀ (steps : List (String × Except PyExn (JObj × List Cmd))) (ar0 : JObj)
      (tr0 : List Cmd) (ar' : JObj) (tr' : List Cmd),
      foldSteps avail steps (ar0, tr0) = .ok (ar', tr') →
      ∀ x ∈ tr', x ∈ tr0 ∨ ∃ s ∈ steps, (avail.lookup s.1).getD false = true ∧
        ∃ res d, s.2 = .ok (res, d) ∧ x ∈ d := by
  intro steps
  induction steps with
  | nil =>
    intro ar0 tr0 ar' tr' h x hx
    cases h
    exact Or.inl hx
  | cons s rest ih =>
    intro ar0 tr0 ar' tr' h x hx
    obtain ⟨n, runner⟩ := s
    rw [foldSteps] at h
    cases hmr : maybeRun avail n runner (ar0, tr0) with
    | error e => rw [hmr] at h; cases h
    | ok st2 =>
      rw [hmr] at h
      obtain ⟨ar1, tr1⟩ := st2
      have hrec := ih ar1 tr1 ar' tr' h x hx
      unfold maybeRun at hmr
      by_cases hav : (avail.lookup n).getD false = true
      · rw [if_pos hav] at hmr
        cases hrun : runner with
        | ok p =>
          obtain ⟨r, d⟩ := p
          rw [hrun] at hmr
          cases hmr
          rcases hrec with hin | ⟨s', hs', hav', res, dd, hok, hxin⟩
          · rcases List.mem_append.mp hin with h0 | hd
            · exact Or.inl h0
            · exact Or.inr ⟨(n, Except.ok (r, d)), List.mem_cons_self _ _, hav, r, d, rfl, hd⟩
          · exact Or.inr ⟨s', List.mem_cons_of_mem _ hs', hav', res, dd, hok, hxin⟩
        | error e => rw [hrun] at hmr; cases hmr
      · rw [if_neg hav] at hmr
        cases hmr
        rcases hrec with hin | ⟨s', hs', hav', res, dd, hok, hxin⟩
        · exact Or.inl hin
        · exact Or.inr ⟨s', List.mem_cons_of_mem _ hs', hav', res, dd, hok, hxin⟩

/-- The probe commands recorded by a successful availability check all
have the probe shape for one of the seven registry tools. -/
theorem cta_delta (env : Env) (avail : List (String × Bool)) (d0 : List Cmd)
    (h : check_tool_availability env = .ok (avail, d0)) :
    ∀ x ∈ d0, ∃ c, x = [c, "--version"] ∨ x = [c, "-h"] := by
  obtain ⟨b1, d1, b2, d2, b3, d3, b4, d4, b5, d5, b6, d6, b7, d7,
    hc1, hc2, hc3, hc4, hc5, hc6, hc7, _, hd⟩ := cta_inv env avail d0 h
  subst hd
  intro x hx
  simp only [List.append_assoc, List.mem_append] at hx
  rcases hx with hx | hx | hx | hx | hx | hx | hx
  · exact ⟨"zsteg", check_command_delta env "zsteg" b1 d1 hc1 x hx⟩
  · exact ⟨"steghide", check_command_delta env "steghide" b2 d2 hc2 x hx⟩
  · exact ⟨"outguess", check_command_delta env "outguess" b3 d3 hc3 x hx⟩
  · exact ⟨"exiftool", check_command_delta env "exiftool" b4 d4 hc4 x hx⟩
  · exact ⟨"binwalk", check_command_delta env "binwalk" b5 d5 hc5 x hx⟩
  · exact ⟨"foremost", check_command_delta env "foremost" b6 d6 hc6 x hx⟩
  · exact ⟨"strings", check_command_delta env "strings" b7 d7 hc7 x hx⟩

/-- The argument vector the passphrase extractor builds always names the
`steghide` executable first. -/
theorem steghideCmd_head (env : Env) (fp pw : String) :
    (steghideCmd env fp pw).head? = some "steghide" := by
  unfold steghideCmd
  split <;> rfl

theorem run_zsteg_delta (env : Env) (fp : String) (res : JObj) (d : List Cmd)
    (h : run_zsteg env fp = .ok (res, d)) : ∀ x ∈ d, x.head? = some "zsteg" := by
  unfold run_zsteg at h
  cases hc : check_command env "zsteg" with
  | error e => simp only [hc] at h; cases h
  | ok p =>
    obtain ⟨b, d0⟩ := p
    simp only [hc] at h
    have hprobe := check_command_delta env "zsteg" b d0 hc
    have hd0 : ∀ x ∈ d0, List.head? x = some "zsteg" := by
      intro x hx
      rcases hprobe x hx with h' | h' <;> simp [h']
    cases b with
    | false =>
      rw [if_neg (fun hh => nomatch hh)] at h
      cases h
      exact hd0
    | true =>
      rw [if_pos rfl] at h
      cases hr : env.run ["zsteg", "-a", fp] 60 with
      | ok r =>
        simp only [hr] at h
        cases h
        intro x hx
        rcases List.mem_append.mp hx with hx0 | hx1
        · exact hd0 x hx0
        · simp only [List.mem_singleton] at hx1
          simp [hx1]
      | error e =>
        cases e <;> simp only [hr] at h <;> cases h <;>
          intro x hx <;> rcases List.mem_append.mp hx with hx0 | hx1 <;>
          first
          | exact hd0 x hx0
          | (simp only [List.mem_singleton] at hx1; simp [hx1])

theorem run_steghide_delta (env : Env) (fp pw : String) (res : JObj) (d : List Cmd)
    (h : run_steghide env fp pw = .ok (res, d)) : ∀ x ∈ d, x.head? = some "steghide" := by
  unfold run_steghide at h
  cases hc : check_command env "steghide" with
  | error e => simp only [hc] at h; cases h
  | ok p =>
    obtain ⟨b, d0⟩ := p
    simp only [hc] at h
    have hprobe := check_command_delta env "steghide" b d0 hc
    have hd0 : ∀ x ∈ d0, List.head? x = some "steghide" := by
      intro x hx
      rcases hprobe x hx with h' | h' <;> simp [h']
    cases b with
    | false =>
      rw [if_neg (fun hh => nomatch hh)] at h
      cases h
      exact hd0
    | true =>
      rw [if_pos rfl] at h
      cases hr : env.run (steghideCmd env fp pw) 30 with
      | ok r =>
        simp only [hr] at h
        cases h
        intro x hx
        rcases List.mem_append.mp hx with hx0 | hx1
        · exact hd0 x hx0
        · simp only [List.mem_singleton] at hx1
          rw [hx1]
          exact steghideCmd_head env fp pw
      | error e =>
        simp only [hr] at h
        cases h
        intro x hx
        rcases List.mem_append.mp hx with hx0 | hx1
        · exact hd0 x hx0
        · simp only [List.mem_singleton] at hx1
          rw [hx1]
          exact steghideCmd_head env fp pw

theorem run_outguess_delta (env : Env) (fp : String) (res : JObj) (d : List Cmd)
    (h : run_outguess env fp = .ok (res, d)) : ∀ x ∈ d, x.head? = some "outguess" := by
  unfold run_outguess at h
  cases hc : check_command env "outguess" with
  | error e => simp only [hc] at h; cases h
  | ok p =>
    obtain ⟨b, d0⟩ := p
    simp only [hc] at h
    have hprobe := check_command_delta env "outguess" b d0 hc
    have hd0 : ∀ x ∈ d0, List.head? x = some "outguess" := by
      intro x hx
      rcases hprobe x hx with h' | h' <;> simp [h']
    cases b with
    | false =>
      rw [if_neg (fun hh => nomatch hh)] at h
      cases h
      exact hd0
    | true =>
      rw [if_pos rfl] at h
      cases hr : env.run ["outguess", "-r", fp, env.tempDir ++ "/outguess_output.txt"] 30 with
      | ok r =>
        simp only [hr] at h
        cases h
        intro x hx
        rcases List.mem_append.mp hx with hx0 | hx1
        · exact hd0 x hx0
        · simp only [List.mem_singleton] at hx1
          simp [hx1]
      | error e =>
        simp only [hr] at h
        cases h
        intro x hx
        rcases List.mem_append.mp hx with hx0 | hx1
        · exact hd0 x hx0
        · simp only [List.mem_singleton] at hx1
          simp [hx1]

theorem run_exiftool_delta (env : Env) (fp : String) (res : JObj) (d : List Cmd)
    (h : run_exiftool env fp = .ok (res, d)) : ∀ x ∈ d, x.head? = some "exiftool" := by
  unfold run_exiftool at h
  cases hc : check_command env "exiftool" with
  | error e => simp only [hc] at h; cases h
  | ok p =>
    obtain ⟨b, d0⟩ := p
    simp only [hc] at h
    have hprobe := check_command_delta env "exiftool" b d0 hc
    have hd0 : ∀ x ∈ d0, List.head? x = some "exiftool" := by
      intro x hx
      rcases hprobe x hx with h' | h' <;> simp [h']
    cases b with
    | false =>
      rw [if_neg (fun hh => nomatch hh)] at h
      cases h
      exact hd0
    | true =>
      rw [if_pos rfl] at h
      cases hr : env.run ["exiftool", "-j", fp] 30 with
      | ok r =>
        cases hm : exiftoolMetadata r.stdout with
        | ok metadata =>
          simp only [hr] at h
          simp only [hm] at h
          cases h
          intro x hx
          rcases List.mem_append.mp hx with hx0 | hx1
          · exact hd0 x hx0
          · simp only [List.mem_singleton] at hx1
            simp [hx1]
        | error e =>
          simp only [hr] at h
          simp only [hm] at h
          cases h
          intro x hx
          rcases List.mem_append.mp hx with hx0 | hx1
          · exact hd0 x hx0
          · simp only [List.mem_singleton] at hx1
            simp [hx1]
      | error e =>
        simp only [hr] at h
        cases h
        intro x hx
        rcases List.mem_append.mp hx with hx0 | hx1
        · exact hd0 x hx0
        · simp only [List.mem_singleton] at hx1
          simp [hx1]

theorem run_binwalk_delta (env : Env) (fp : String) (res : JObj) (d : List Cmd)
    (h : run_binwalk env fp = .ok (res, d)) : ∀ x ∈ d, x.head? = some "binwalk" := by
  unfold run_binwalk at h
  cases hc : check_command env "binwalk" with
  | error e => simp only [hc] at h; cases h
  | ok p =>
    obtain ⟨b, d0⟩ := p
    simp only [hc] at h
    have hprobe := check_command_delta env "binwalk" b d0 hc
    have hd0 : ∀ x ∈ d0, List.head? x = some "binwalk" := by
      intro x hx
      rcases hprobe x hx with h' | h' <;> simp [h']
    cases b with
    | false =>
      rw [if_neg (fun hh => nomatch hh)] at h
      cases h
      exact hd0
    | true =>
      rw [if_pos rfl] at h
      cases hr : env.run ["binwalk", "-e", "-C", env.tempDir ++ "/binwalk_extract", fp] 60 with
      | ok r =>
        cases hr2 : env.run ["binwalk", fp] 30 with
        | ok sig =>
          simp only [hr] at h
          simp only [hr2] at h
          cases h
          intro x hx
          rcases List.mem_append.mp hx with hx0 | hx1
          · exact hd0 x hx0
          · rcases List.mem_pair.mp hx1 with h' | h' <;> simp [h']
        | error e =>
          simp only [hr] at h
          simp only [hr2] at h
          cases h
          intro x hx
          rcases List.mem_append.mp hx with hx0 | hx1
          · exact hd0 x hx0
          · rcases List.mem_pair.mp hx1 with h' | h' <;> simp [h']
      | error e =>
        simp only [hr] at h
        cases h
        intro x hx
        rcases List.mem_append.mp hx with hx0 | hx1
        · exact hd0 x hx0
        · simp only [List.mem_singleton] at hx1
          simp [hx1]

theorem run_foremost_delta (env : Env) (fp : String) (res : JObj) (d : List Cmd)
    (h : run_foremost env fp = .ok (res, d)) : ∀ x ∈ d, x.head? = some "foremost" := by
  unfold run_foremost at h
  cases hc : check_command env "foremost" with
  | error e => simp only [hc] at h; cases h
  | ok p =>
    obtain ⟨b, d0⟩ := p
    simp only [hc] at h
    have hprobe := check_command_delta env "foremost" b d0 hc
    have hd0 : ∀ x ∈ d0, List.head? x = some "foremost" := by
      intro x hx
      rcases hprobe x hx with h' | h' <;> simp [h']
    cases b with
    | false =>
      rw [if_neg (fun hh => nomatch hh)] at h
      cases h
      exact hd0
    | true =>
      rw [if_pos rfl] at h
      cases hr : env.run ["foremost", "-i", fp, "-o", env.tempDir ++ "/foremost_output"] 60 with
      | ok r =>
        simp only [hr] at h
        cases h
        intro x hx
        rcases List.mem_append.mp hx with hx0 | hx1
        · exact hd0 x hx0
        · simp only [List.mem_singleton] at hx1
          simp [hx1]
      | error e =>
        simp only [hr] at h
        cases h
        intro x hx
        rcases List.mem_append.mp hx with hx0 | hx1
        · exact hd0 x hx0
        · simp only [List.mem_singleton] at hx1
          simp [hx1]

theorem run_strings_delta (env : Env) (fp : String) (res : JObj) (d : List Cmd)
    (h : run_strings env fp = .ok (res, d)) : ∀ x ∈ d, x.head? = some "strings" := by
  unfold run_strings at h
  cases hc : check_command env "strings" with
  | error e => simp only [hc] at h; cases h
  | ok p =>
    obtain ⟨b, d0⟩ := p
    simp only [hc] at h
    have hprobe := check_command_delta env "strings" b d0 hc
    have hd0 : ∀ x ∈ d0, List.head? x = some "strings" := by
      intro x hx
      rcases hprobe x hx with h' | h' <;> simp [h']
    cases b with
    | false =>
      rw [if_neg (fun hh => nomatch hh)] at h
      cases h
      exact hd0
    | true =>
      rw [if_pos rfl] at h
      cases hr : env.run ["strings", fp] 30 with
      | ok r =>
        simp only [hr] at h
        cases h
        intro x hx
        rcases List.mem_append.mp hx with hx0 | hx1
        · exact hd0 x hx0
        · simp only [List.mem_singleton] at hx1
          simp [hx1]
      | error e =>
        simp only [hr] at h
        cases h
        intro x hx
        rcases List.mem_append.mp hx with hx0 | hx1
        · exact hd0 x hx0
        · simp only [List.mem_singleton] at hx1
          simp [hx1]

/-- Every command a step of the registry records starts with that step's
tool name. -/
theorem stepList_heads (env : Env) (fp pw : String) :
    ∀ s ∈ stepList env fp pw, ∀ res d, s.2 = .ok (res, d) →
      ∀ x ∈ d, x.head? = some s.1 := by
  intro s hs
  simp only [stepList, List.mem_cons, List.not_mem_nil, or_false] at hs
  rcases hs with rfl | rfl | rfl | rfl | rfl | rfl | rfl
  · exact fun res d h => run_zsteg_delta env fp res d h
  · exact fun res d h => run_steghide_delta env fp pw res d h
  · exact fun res d h => run_outguess_delta env fp res d h
  · exact fun res d h => run_exiftool_delta env fp res d h
  · exact fun res d h => run_binwalk_delta env fp res d h
  · exact fun res d h => run_foremost_delta env fp res d h
  · exact fun res d h => run_strings_delta env fp res d h

/-! ## Claim C8 -/

theorem cli_tool_specific_headers (t : String) (r : JObj) :
    headersOf (cli_tool_specific t r) = [] := by
  unfold cli_tool_specific
  repeat' split
  all_goals simp [headersOf, List.filterMap_map, Function.comp]

theorem gui_tool_specific_headers (t : String) (r : JObj) :
    headersOf (gui_tool_specific t r) = [] := by
  unfold gui_tool_specific
  repeat' split
  all_goals simp [headersOf, List.filterMap_map, Function.comp]

theorem headersOf_header_cons (t : String) (l : List RLine) :
    headersOf (RLine.header t :: l) = t :: headersOf l := rfl

theorem headersOf_append (l1 l2 : List RLine) :
    headersOf (l1 ++ l2) = headersOf l1 ++ headersOf l2 :=
  List.filterMap_append _ _ _

theorem cli_entry_headers (p : String × JVal) : headersOf (cli_entry p) = [p.1] := by
  obtain ⟨t, v⟩ := p
  cases v with
  | obj r =>
    unfold cli_entry
    cases hlk : r.lookup "error" with
    | some w => simp only [hlk]; rfl
    | none =>
      simp only [hlk]
      rw [headersOf_header_cons, headersOf_append, cli_tool_specific_headers]
      split <;> rfl
  | null => rfl
  | b v => rfl
  | i v => rfl
  | s v => rfl
  | arr vs => rfl

theorem gui_entry_headers (p : String × JVal) : headersOf (gui_entry p) = [p.1] := by
  obtain ⟨t, v⟩ := p
  cases v with
  | obj r =>
    unfold gui_entry
    cases hlk : r.lookup "error" with
    | some w => simp only [hlk]; rfl
    | none =>
      simp only [hlk]
      split
      · rw [headersOf_header_cons, gui_tool_specific_headers]
      · rfl
  | null => rfl
  | b v => rfl
  | i v => rfl
  | s v => rfl
  | arr vs => rfl

theorem headersOf_catMap {f : String × JVal → List RLine}
    (hf : ∀ p, headersOf (f p) = [p.1]) :
    ∀ ar : JObj, headersOf (catMap f ar) = ar.map Prod.fst
  | [] => rfl
  | p :: rest => by
    rw [show catMap f (p :: rest) = f p ++ catMap f rest from rfl]
    rw [headersOf_append, hf p, headersOf_catMap hf rest]
    rfl

/-- C8 counterexample: the console renderer and the form renderer are not
equivalent.  On a `success=false` tool-result with no error field and a
nonempty `output`, the console renderer prints "No results found" and then
**continues** into the tool-specific branch (the Python `if not
tool_results.get("success", False):` block has no `continue`), while the
form renderer skips further rendering; their decision lists differ. -/
theorem renderers_differ :
    (print_results arC8).length = 3 ∧
    (display_results arC8).length = 2 ∧
    print_results arC8 ≠ display_results arC8 :=
  ⟨rfl, rfl, fun h => by
    have h1 : (3 : Nat) = 2 := congrArg List.length h
    exact absurd h1 (by decide)⟩

/-- C8 (amended): both renderers walk the report's tool-result mapping in
insertion order, emitting one header per tool; a tool-result carrying an
error field renders as a single error line in both and nothing further;
a tool-result with `success=false` and no error field renders a
"no results found" line in both, after which the form renderer skips
further field rendering while the console renderer goes on to render the
tool-specific fields — so the renderers are not equivalent. -/
theorem renderers_common_structure :
    (∀ ar : JObj, headersOf (print_results ar) = ar.map Prod.fst ∧
       headersOf (display_results ar) = ar.map Prod.fst) ∧
    (∀ (t : String) (r : JObj) (v : JVal), r.lookup "error" = some v →
       cli_entry (t, JVal.obj r) = [RLine.header t, RLine.errorLine v] ∧
       gui_entry (t, JVal.obj r) = [RLine.header t, RLine.errorLine v]) ∧
    (∀ (t : String) (r : JObj), r.lookup "error" = none →
       pyTruthy ((r.lookup "success").getD (JVal.b false)) = false →
       gui_entry (t, JVal.obj r) = [RLine.header t, RLine.noResults] ∧
       cli_entry (t, JVal.obj r) =
         RLine.header t :: RLine.noResults :: cli_tool_specific t r) := by
  refine ⟨?_, ?_, ?_⟩
  · intro ar
    exact ⟨headersOf_catMap cli_entry_headers ar, headersOf_catMap gui_entry_headers ar⟩
  · intro t r v herr
    constructor
    · simp [cli_entry, herr]
    · simp [gui_entry, herr]
  · intro t r herr hsucc
    constructor
    · simp [gui_entry, herr, hsucc]
    · simp [cli_entry, herr, hsucc]

/-- Witness for C8 (amended) at concrete reports. -/
theorem renderers_common_structure_witness :
    headersOf (print_results arC8) = ["zsteg"] ∧
    headersOf (display_results arC8) = ["zsteg"] ∧
    (cli_entry ("exiftool", JVal.obj (errRec "boom")) =
       [RLine.header "exiftool", RLine.errorLine (JVal.s "boom")] ∧
     gui_entry ("exiftool", JVal.obj (errRec "boom")) =
       [RLine.header "exiftool", RLine.errorLine (JVal.s "boom")]) ∧
    (gui_entry ("foremost", JVal.obj [("success", JVal.b false)]) =
       [RLine.header "foremost", RLine.noResults] ∧
     cli_entry ("foremost", JVal.obj [("success", JVal.b false)]) =
       RLine.header "foremost" :: RLine.noResults ::
         cli_tool_specific "foremost" [("success", JVal.b false)]) :=
  ⟨(renderers_common_structure.1 arC8).1,
   (renderers_common_structure.1 arC8).2,
   renderers_common_structure.2.1 "exiftool" (errRec "boom") (JVal.s "boom") rfl,
   renderers_common_structure.2.2 "foremost" [("success", JVal.b false)] rfl rfl⟩

/-! ## Claim C1 -/

/-- A registry tool occurs among the keys contributed by the aggregator's
steps exactly when the availability dict holds `True` for it. -/
theorem mem_keys_of_steps (env : Env) (fp pw : String) (avail : List (String × Bool))
    (t : String) (ht : t ∈ toolNames) :
    (t ∈ ((stepList env fp pw).filter
        (fun s => (avail.lookup s.1).getD false)).map Prod.fst)
      ↔ (avail.lookup t).getD false = true := by
  rw [mem_map_fst_filter]
  constructor
  · rintro ⟨x, hx, rfl, hp⟩
    exact hp
  · intro hp
    simp only [toolNames, List.mem_cons, List.not_mem_nil, or_false] at ht
    rcases ht with rfl | rfl | rfl | rfl | rfl | rfl | rfl
    · exact ⟨("zsteg", run_zsteg env fp), by simp [stepList], rfl, hp⟩
    · exact ⟨("steghide", run_steghide env fp pw), by simp [stepList], rfl, hp⟩
    · exact ⟨("outguess", run_outguess env fp), by simp [stepList], rfl, hp⟩
    · exact ⟨("exiftool", run_exiftool env fp), by simp [stepList], rfl, hp⟩
    · exact ⟨("binwalk", run_binwalk env fp), by simp [stepList], rfl, hp⟩
    · exact ⟨("foremost", run_foremost env fp), by simp [stepList], rfl, hp⟩
    · exact ⟨("strings", run_strings env fp), by simp [stepList], rfl, hp⟩

/-- C1: on an existing file, the returned report's `analysis_results`
mapping has a key for a registry tool if and only if the availability
probe run during that call reported the tool available; and a tool the
probe reported unavailable is never invoked — every traced command naming
it is one of the two probe attempts. -/
theorem analyze_keys_iff_probe (env : Env) (fp pw : String)
    (avail : List (String × Bool)) (d0 : List Cmd) (rep : JObj) (tr : List Cmd)
    (hex : env.pathExists fp = true)
    (hav : check_tool_availability env = .ok (avail, d0))
    (han : analyze_file env fp pw = .ok (rep, tr)) :
    ∃ ar : JObj, rep.lookup "analysis_results" = some (JVal.obj ar) ∧
      (∀ t ∈ toolNames, (ar.lookup t).isSome = (avail.lookup t).getD false) ∧
      (∀ t ∈ toolNames, (avail.lookup t).getD false = false →
        ∀ c ∈ tr, c.head? = some t → c = [t, "--version"] ∨ c = [t, "-h"]) := by
  unfold analyze_file at han
  rw [if_pos hex] at han
  simp only [hav] at han
  cases hfold : foldSteps avail (stepList env fp pw) ([], d0) with
  | error e => simp only [hfold] at han; cases han
  | ok st =>
    obtain ⟨ar, dfin⟩ := st
    simp only [hfold] at han
    cases han
    refine ⟨ar, rfl, ?_, ?_⟩
    · intro t ht
      have hkeys := foldSteps_keys avail (stepList env fp pw) [] d0 ar tr hfold
      simp only [List.map_nil, List.nil_append] at hkeys
      have hmem := lookup_isSome_mem t ar
      rw [hkeys] at hmem
      have hsteps := mem_keys_of_steps env fp pw avail t ht
      cases hb : (avail.lookup t).getD false with
      | true => exact hmem.mpr (hsteps.mpr hb)
      | false =>
        rw [← Bool.not_eq_true]
        intro hy
        have hmm := hsteps.mp (hmem.mp hy)
        rw [hb] at hmm
        cases hmm
    · intro t ht hfalse c hc hhead
      have htr := foldSteps_trace avail (stepList env fp pw) [] d0 ar tr hfold c hc
      rcases htr with hin0 | ⟨s, hs, havs, res, dd, hok, hcin⟩
      · obtain ⟨c0, hshape⟩ := cta_delta env avail d0 hav c hin0
        rcases hshape with rfl | rfl
        · simp only [List.head?, Option.some.injEq] at hhead
          rw [hhead]
          exact Or.inl rfl
        · simp only [List.head?, Option.some.injEq] at hhead
          rw [hhead]
          exact Or.inr rfl
      · exfalso
        have hheads := stepList_heads env fp pw s hs res dd hok c hcin
        have hst : s.1 = t := by
          rw [hheads] at hhead
          exact Option.some.inj hhead
        rw [hst, hfalse] at havs
        cases havs

/-- Witness for C1 at a world where all seven probes report available. -/
theorem analyze_keys_iff_probe_witness :
    envOk.pathExists "f.png" = true ∧
    ∃ avail d0 rep tr,
      check_tool_availability envOk = .ok (avail, d0) ∧
      analyze_file envOk "f.png" "pw" = .ok (rep, tr) ∧
      ∃ ar : JObj, rep.lookup "analysis_results" = some (JVal.obj ar) ∧
        (∀ t ∈ toolNames, (ar.lookup t).isSome = (avail.lookup t).getD false) ∧
        (∀ t ∈ toolNames, (avail.lookup t).getD false = false →
          ∀ c ∈ tr, c.head? = some t → c = [t, "--version"] ∨ c = [t, "-h"]) :=
  ⟨rfl, _, _, _, _, rfl, rfl,
    analyze_keys_iff_probe envOk "f.png" "pw" _ _ _ _ rfl rfl rfl⟩

/-! ## Claim C10 -/

theorem foldSteps_congr (avail : List (String × Bool)) (ex : String) :
    ∀ (s₁ s₂ : List (String × Except PyExn (JObj × List Cmd))),
      List.Forall₂ (stepRel ex) s₁ s₂ →
      ∀ (ar₁ ar₂ : JObj), List.Forall₂ (entryRel ex) ar₁ ar₂ →
      ∀ (tr₁ tr₂ : List Cmd) (arf₁ : JObj) (trf₁ : List Cmd) (arf₂ : JObj) (trf₂ : List Cmd),
        foldSteps avail s₁ (ar₁, tr₁) = .ok (arf₁, trf₁) →
        foldSteps avail s₂ (ar₂, tr₂) = .ok (arf₂, trf₂) →
        List.Forall₂ (entryRel ex) arf₁ arf₂ := by
  intro s₁ s₂ hsim
  induction hsim with
  | nil =>
    intro ar₁ ar₂ har tr₁ tr₂ arf₁ trf₁ arf₂ trf₂ h1 h2
    cases h1
    cases h2
    exact har
  | @cons a b l₁ l₂ hab hrest ih =>
    intro ar₁ ar₂ har tr₁ tr₂ arf₁ trf₁ arf₂ trf₂ h1 h2
    obtain ⟨n₁, r₁⟩ := a
    obtain ⟨n₂, r₂⟩ := b
    obtain ⟨hn, hv⟩ := hab
    simp only at hn hv
    subst hn
    rw [foldSteps] at h1 h2
    unfold maybeRun at h1 h2
    by_cases hav : (avail.lookup n₁).getD false = true
    · rw [if_pos hav] at h1 h2
      cases hr1 : r₁ with
      | error e => rw [hr1] at h1; cases h1
      | ok p1 =>
        obtain ⟨res₁, d₁⟩ := p1
        rw [hr1] at h1
        cases hr2 : r₂ with
        | error e => rw [hr2] at h2; cases h2
        | ok p2 =>
          obtain ⟨res₂, d₂⟩ := p2
          rw [hr2] at h2
          have hentry : entryRel ex (n₁, JVal.obj res₁) (n₁, JVal.obj res₂) := by
            refine ⟨rfl, fun hne => ?_⟩
            have := hv hne
            rw [hr1, hr2] at this
            cases this
            rfl
          exact ih _ _ (List.rel_append har (List.Forall₂.cons hentry List.Forall₂.nil))
            _ _ _ _ _ _ h1 h2
    · rw [if_neg hav] at h1 h2
      exact ih _ _ har _ _ _ _ _ _ h1 h2

theorem forall2_map_fst (ex : String) :
    ∀ l₁ l₂ : JObj, List.Forall₂ (entryRel ex) l₁ l₂ →
      l₁.map Prod.fst = l₂.map Prod.fst := by
  intro l₁ l₂ h
  induction h with
  | nil => rfl
  | cons hab _ ih => simp [ih, hab.1]

theorem forall2_lookup (ex t : String) (hne : t ≠ ex) :
    ∀ l₁ l₂ : JObj, List.Forall₂ (entryRel ex) l₁ l₂ →
      l₁.lookup t = l₂.lookup t := by
  intro l₁ l₂ h
  induction h with
  | nil => rfl
  | @cons a b l₁' l₂' hab _ ih =>
    obtain ⟨k₁, v₁⟩ := a
    obtain ⟨k₂, v₂⟩ := b
    obtain ⟨hk, hv⟩ := hab
    simp only at hk hv
    subst hk
    by_cases hkt : t = k₁
    · subst hkt
      have hval := hv hne
      simp only at hval
      simp [List.lookup, hval]
    · have hbeq : (t == k₁) = false := beq_eq_false_iff_ne.mpr hkt
      simp [List.lookup, hbeq, ih]

/-- C10: with the external tools modelled as deterministic functions of
their argument vectors, two `analyze_file` calls on the same existing file
that differ only in the passphrase produce reports that agree on the file
path, the file size, and every `analysis_results` entry except possibly
the `steghide` entry: the passphrase is forwarded only to the passphrase
extractor's invocation. -/
theorem analyze_passphrase_isolation (env : Env) (fp p1 p2 : String)
    (rep1 rep2 : JObj) (tr1 tr2 : List Cmd)
    (hex : env.pathExists fp = true)
    (h1 : analyze_file env fp p1 = .ok (rep1, tr1))
    (h2 : analyze_file env fp p2 = .ok (rep2, tr2)) :
    rep1.lookup "file_path" = some (JVal.s fp) ∧
    rep2.lookup "file_path" = some (JVal.s fp) ∧
    rep1.lookup "file_size" = some (JVal.i (env.getsize fp)) ∧
    rep2.lookup "file_size" = some (JVal.i (env.getsize fp)) ∧
    ∃ ar1 ar2 : JObj,
      rep1.lookup "analysis_results" = some (JVal.obj ar1) ∧
      rep2.lookup "analysis_results" = some (JVal.obj ar2) ∧
      ar1.map Prod.fst = ar2.map Prod.fst ∧
      ∀ t, t ≠ "steghide" → ar1.lookup t = ar2.lookup t := by
  unfold analyze_file at h1 h2
  rw [if_pos hex] at h1 h2
  cases hcta : check_tool_availability env with
  | error e => simp only [hcta] at h1; cases h1
  | ok q =>
    obtain ⟨avail, d0⟩ := q
    simp only [hcta] at h1 h2
    cases hf1 : foldSteps avail (stepList env fp p1) ([], d0) with
    | error e => simp only [hf1] at h1; cases h1
    | ok st1 =>
      obtain ⟨ar1, df1⟩ := st1
      simp only [hf1] at h1
      cases h1
      cases hf2 : foldSteps avail (stepList env fp p2) ([], d0) with
      | error e => simp only [hf2] at h2; cases h2
      | ok st2 =>
        obtain ⟨ar2, df2⟩ := st2
        simp only [hf2] at h2
        cases h2
        have hsim : List.Forall₂ (stepRel "steghide")
            (stepList env fp p1) (stepList env fp p2) := by
          unfold stepList
          exact List.Forall₂.cons ⟨rfl, fun _ => rfl⟩
            (List.Forall₂.cons ⟨rfl, fun hcontra => absurd rfl hcontra⟩
              (List.Forall₂.cons ⟨rfl, fun _ => rfl⟩ (List.Forall₂.cons ⟨rfl, fun _ => rfl⟩
                (List.Forall₂.cons ⟨rfl, fun _ => rfl⟩ (List.Forall₂.cons ⟨rfl, fun _ => rfl⟩
                  (List.Forall₂.cons ⟨rfl, fun _ => rfl⟩ List.Forall₂.nil))))))
        have hrel := foldSteps_congr avail "steghide" _ _ hsim [] [] List.Forall₂.nil
          d0 d0 ar1 tr1 ar2 tr2 hf1 hf2
        exact ⟨rfl, rfl, rfl, rfl, ar1, ar2, rfl, rfl,
          forall2_map_fst "steghide" ar1 ar2 hrel,
          fun t ht => forall2_lookup "steghide" t ht ar1 ar2 hrel⟩

/-- Witness for C10 at a concrete world and two distinct passphrases. -/
theorem analyze_passphrase_isolation_witness :
    envOk.pathExists "f.png" = true ∧
    ∃ rep1 rep2 tr1 tr2,
      analyze_file envOk "f.png" "alpha" = .ok (rep1, tr1) ∧
      analyze_file envOk "f.png" "beta" = .ok (rep2, tr2) ∧
      rep1.lookup "file_path" = some (JVal.s "f.png") ∧
      rep2.lookup "file_path" = some (JVal.s "f.png") ∧
      rep1.lookup "file_size" = some (JVal.i (envOk.getsize "f.png")) ∧
      rep2.lookup "file_size" = some (JVal.i (envOk.getsize "f.png")) ∧
      ∃ ar1 ar2 : JObj,
        rep1.lookup "analysis_results" = some (JVal.obj ar1) ∧
        rep2.lookup "analysis_results" = some (JVal.obj ar2) ∧
        ar1.map Prod.fst = ar2.map Prod.fst ∧
        ∀ t, t ≠ "steghide" → ar1.lookup t = ar2.lookup t :=
  ⟨rfl, _, _, _, _, rfl, rfl,
    analyze_passphrase_isolation envOk "f.png" "alpha" "beta" _ _ _ _ rfl rfl rfl⟩

/-! ## Claim C5 -/

/-- C5 counterexample: stdout `"[]"` begins with the array marker and
parses as a JSON array, yet the result carries no `metadata` field at all —
`json.loads("[]")[0]` raises `IndexError`, which the inner handler (it only
catches `json.JSONDecodeError`) does not stop, so the outer handler turns
the whole result into an error record. -/
theorem run_exiftool_empty_array_error :
    run_exiftool envC5 "f.jpg" =
      .ok (errRec "exiftool error: list index out of range",
           [["exiftool", "--version"], ["exiftool", "-j", "f.jpg"]]) ∧
    jsonParse "[]" = some (JVal.arr []) ∧
    (errRec "exiftool error: list index out of range").lookup "metadata" = none :=
  ⟨rfl, rfl, rfl⟩

theorem exiftoolMetadata_empty (stdout : String) (h : stdout = "") :
    exiftoolMetadata stdout = .ok (JVal.obj []) := by
  simp [exiftoolMetadata, h]

theorem exiftoolMetadata_nostart (stdout : String)
    (h : strStartsWith "[" (pyStrip stdout) = false) :
    exiftoolMetadata stdout = .ok (JVal.obj []) := by
  unfold exiftoolMetadata
  split
  · simp [h]
  · rfl

theorem exiftoolMetadata_noparse (stdout : String) (h : jsonParse stdout = none) :
    exiftoolMetadata stdout = .ok (JVal.obj []) := by
  unfold exiftoolMetadata
  split
  · split
    · simp [h]
    · rfl
  · rfl

theorem exiftoolMetadata_cons (stdout : String) (x : JVal) (l : List JVal)
    (hne : stdout ≠ "") (hsw : strStartsWith "[" (pyStrip stdout) = true)
    (hj : jsonParse stdout = some (JVal.arr (x :: l))) :
    exiftoolMetadata stdout = .ok x := by
  simp [exiftoolMetadata, hne, hsw, hj, pyIndex0]

theorem exiftoolMetadata_nil (stdout : String)
    (hne : stdout ≠ "") (hsw : strStartsWith "[" (pyStrip stdout) = true)
    (hj : jsonParse stdout = some (JVal.arr [])) :
    exiftoolMetadata stdout = .error (.other "list index out of range") := by
  simp [exiftoolMetadata, hne, hsw, hj, pyIndex0]

/-- C5 (amended): when exiftool's stdout begins with a JSON array marker
and parses as a **nonempty** JSON array, the first element becomes the
result's metadata field; an empty-array stdout yields an error record (an
index error caught by the outer handler); for every other stdout —
empty, not starting with `[`, or unparseable — the metadata field is an
empty mapping, the success flag still reflects the tool's own exit code,
and no exception escapes the invocation function. -/
theorem run_exiftool_metadata_cases (env : Env) (fp : String) (d0 : List Cmd)
    (r : CompletedProcess)
    (hc : check_command env "exiftool" = .ok (true, d0))
    (hr : env.run ["exiftool", "-j", fp] 30 = .ok r) :
    ∃ res d, run_exiftool env fp = .ok (res, d) ∧
      ((r.stdout = "" ∨ strStartsWith "[" (pyStrip r.stdout) = false ∨
          jsonParse r.stdout = none) →
        res.lookup "metadata" = some (JVal.obj []) ∧
        res.lookup "success" = some (JVal.b (r.returncode == 0)) ∧
        res.lookup "error" = none) ∧
      (∀ x l, r.stdout ≠ "" → strStartsWith "[" (pyStrip r.stdout) = true →
        jsonParse r.stdout = some (JVal.arr (x :: l)) →
        res.lookup "metadata" = some x ∧
        res.lookup "success" = some (JVal.b (r.returncode == 0))) ∧
      (r.stdout ≠ "" → strStartsWith "[" (pyStrip r.stdout) = true →
        jsonParse r.stdout = some (JVal.arr []) →
        res = errRec "exiftool error: list index out of range") := by
  cases hm : exiftoolMetadata r.stdout with
  | ok metadata =>
    refine ⟨[("tool", JVal.s "exiftool"), ("metadata", metadata),
             ("raw_output", JVal.s r.stdout), ("errors", JVal.s r.stderr),
             ("success", JVal.b (r.returncode == 0))],
            d0 ++ [["exiftool", "-j", fp]], ?_, ?_, ?_, ?_⟩
    · simp [run_exiftool, hc, hr, hm]
    · intro hdisj
      have hobj : metadata = JVal.obj [] := by
        rcases hdisj with h | h | h
        · have := exiftoolMetadata_empty r.stdout h
          rw [hm] at this; cases this; rfl
        · have := exiftoolMetadata_nostart r.stdout h
          rw [hm] at this; cases this; rfl
        · have := exiftoolMetadata_noparse r.stdout h
          rw [hm] at this; cases this; rfl
      subst hobj
      exact ⟨rfl, rfl, rfl⟩
    · intro x l hne hsw hj
      have := exiftoolMetadata_cons r.stdout x l hne hsw hj
      rw [hm] at this; cases this
      exact ⟨rfl, rfl⟩
    · intro hne hsw hj
      have := exiftoolMetadata_nil r.stdout hne hsw hj
      rw [hm] at this; cases this
  | error e =>
    refine ⟨errRec ("exiftool error: " ++ e.msg), d0 ++ [["exiftool", "-j", fp]],
            ?_, ?_, ?_, ?_⟩
    · simp [run_exiftool, hc, hr, hm]
    · intro hdisj
      exfalso
      rcases hdisj with h | h | h
      · have := exiftoolMetadata_empty r.stdout h
        rw [hm] at this; cases this
      · have := exiftoolMetadata_nostart r.stdout h
        rw [hm] at this; cases this
      · have := exiftoolMetadata_noparse r.stdout h
        rw [hm] at this; cases this
    · intro x l hne hsw hj
      exfalso
      have := exiftoolMetadata_cons r.stdout x l hne hsw hj
      rw [hm] at this; cases this
    · intro hne hsw hj
      have := exiftoolMetadata_nil r.stdout hne hsw hj
      rw [hm] at this; cases this
      rfl

/-- Witness for C5 (amended) at a world where exiftool emits `[1]`. -/
theorem run_exiftool_metadata_cases_witness :
    ∃ res d, run_exiftool envExif "f.jpg" = .ok (res, d) ∧
      ((("[1]" : String) = "" ∨ strStartsWith "[" (pyStrip "[1]") = false ∨
          jsonParse "[1]" = none) →
        res.lookup "metadata" = some (JVal.obj []) ∧
        res.lookup "success" = some (JVal.b ((0 : Int) == 0)) ∧
        res.lookup "error" = none) ∧
      (∀ x l, ("[1]" : String) ≠ "" → strStartsWith "[" (pyStrip "[1]") = true →
        jsonParse "[1]" = some (JVal.arr (x :: l)) →
        res.lookup "metadata" = some x ∧
        res.lookup "success" = some (JVal.b ((0 : Int) == 0))) ∧
      (("[1]" : String) ≠ "" → strStartsWith "[" (pyStrip "[1]") = true →
        jsonParse "[1]" = some (JVal.arr []) →
        res = errRec "exiftool error: list index out of range") :=
  run_exiftool_metadata_cases envExif "f.jpg" [["exiftool", "--version"]]
    ⟨0, "[1]", ""⟩ rfl rfl

end Stego
